import Mathlib

/-!
Verification of the PyRat turn engine (`src/pyrat/src`).

The definitions below are a shallow embedding of the relevant Python code:
`Game.__determine_new_game_state`, `Game.__distribute_cheese`, the statistics
tally of `Game.start`, `GameState.game_over` / `get_score_per_team` /
`is_in_mud`, and the grid-maze primitives from `Maze.py` / `Graph.py`.
Python numbers are modelled exactly: scores as rationals, counters as
integers.  Dictionaries keyed by player name are modelled as functions from
`String`, updated with `Function.update`, and the sequential `for` loops of
the engine as left folds over the player list.
-/

namespace PyRat

/-- The `Action` enumeration.  The enum module itself is not part of the
source tree; its members are those listed in the spec and its string values
are those of `Maze.possible_actions`. -/
inductive Action where
  | NOTHING
  | NORTH
  | SOUTH
  | EAST
  | WEST
deriving DecidableEq, Repr

/-- String value of each action (`Action.<X>.value` in Python),
matching `Maze.possible_actions = ["nothing", "north", "south", "east", "west"]`. -/
def Action.value : Action → String
  | .NOTHING => "nothing"
  | .NORTH => "north"
  | .SOUTH => "south"
  | .EAST => "east"
  | .WEST => "west"

/-- `all_action_names = [action.value for action in Action]` (Game.start). -/
def allActionNames : List String :=
  [Action.NOTHING.value, Action.NORTH.value, Action.SOUTH.value,
   Action.EAST.value, Action.WEST.value]

/-- A maze: a grid graph (Maze.py / Graph.py).  `edges v1 v2` is the weight
of the edge between `v1` and `v2` when it exists (`Graph.get_weight`), and
`none` when there is no edge. -/
structure Maze where
  width : Nat
  height : Nat
  vertices : List Nat
  edges : Nat → Nat → Option Nat

namespace Maze

/-- `Maze.i_to_rc`: `row = index // width`, `col = index % width`. -/
def i_to_rc (m : Maze) (index : Nat) : Nat × Nat :=
  (index / m.width, index % m.width)

/-- `Maze.rc_to_i`: `index = row * width + col`. -/
def rc_to_i (m : Maze) (row col : Nat) : Nat :=
  row * m.width + col

/-- `Maze.i_exists`: `index in self.vertices`. -/
def i_exists (m : Maze) (index : Nat) : Bool :=
  decide (index ∈ m.vertices)

/-- `Graph.has_edge`: whether an edge exists between two vertices. -/
def has_edge (m : Maze) (v1 v2 : Nat) : Bool :=
  (m.edges v1 v2).isSome

/-- `Graph.get_weight`: weight of an existing edge (only ever consulted
under a `has_edge` guard in the engine). -/
def get_weight (m : Maze) (v1 v2 : Nat) : Nat :=
  (m.edges v1 v2).getD 0

end Maze

/-- One entry of `GameState.muds`: `{"target": ..., "count": ...}`. -/
structure MudRec where
  target : Option Nat
  count : Int
deriving DecidableEq, Repr

/-- `GameState`: snapshot of the game (GameState.py).  Python dictionaries
keyed by player names become functions from `String`. -/
structure GameState where
  player_locations : String → Nat
  score_per_player : String → ℚ
  muds : String → MudRec
  teams : List (String × List String)
  cheese : List Nat
  turn : Nat

namespace GameState

/-- `GameState.is_in_mud`: `muds[name]["target"] is not None`. -/
def is_in_mud (s : GameState) (name : String) : Bool :=
  (s.muds name).target.isSome

end GameState

/-- Python's banker rounding of a rational to the nearest integer
(ties to the even integer), used by `round(x, 5)`. -/
def roundHalfToEven (q : ℚ) : ℤ :=
  let f := q.floor
  let r := q - f
  if r < 1 / 2 then f
  else if 1 / 2 < r then f + 1
  else if f % 2 = 0 then f else f + 1

/-- `round(x, 5)` on exact rationals. -/
def round5 (q : ℚ) : ℚ :=
  (roundHalfToEven (q * 100000) : ℚ) / 100000

namespace GameState

/-- `GameState.get_score_per_team`: for each team, the rounded sum of its
members' scores. -/
def get_score_per_team (s : GameState) : List (String × ℚ) :=
  s.teams.map (fun t => (t.1, round5 (t.2.map s.score_per_player).sum))

/-- `GameState.game_over` (src/pyrat/src/GameState.py, lines 274-304).
The game is over when there is no more cheese; otherwise, with more than
one team, a flag starts at `True` and is cleared whenever some ordered pair
of distinct teams has equal scores or the lower one could still reach the
higher one with all remaining cheese. -/
def game_over (s : GameState) : Bool :=
  if s.cheese.length = 0 then true
  else
    let spt := s.get_score_per_team
    if 1 < spt.length then
      spt.all (fun t1 => spt.all (fun t2 =>
        !(decide (t1.1 ≠ t2.1) &&
          (decide (t1.2 = t2.2) ||
           (decide (t1.2 < t2.2) && decide (t2.2 ≤ t1.2 + (s.cheese.length : ℚ)))))))
    else false

/-- `GameState.game_over` of the older revision
(src/pyrat2024/src/GameState.py, lines 116-139): the flag starts as
"no cheese left" and the loop can only clear it. -/
def game_over_2024 (s : GameState) : Bool :=
  let spt := s.get_score_per_team
  let max_score := (spt.map Prod.snd).foldr max 0
  decide (s.cheese.length = 0) &&
    spt.all (fun t =>
      !(decide (t.2 ≠ max_score) &&
        decide (max_score ≤ t.2 + (s.cheese.length : ℚ))))

end GameState

/-- The destination computed by the movement step of
`Game.__determine_new_game_state` (lines 691-701): `target` starts as
`None` and is set by the `if/elif` chain on the action and the grid
bounds. -/
def actionTarget (m : Maze) (loc : Nat) (a : Action) : Option Nat :=
  let row := (m.i_to_rc loc).1
  let col := (m.i_to_rc loc).2
  if a = Action.NORTH ∧ 0 < row then some (m.rc_to_i (row - 1) col)
  else if a = Action.SOUTH ∧ row < m.height - 1 then some (m.rc_to_i (row + 1) col)
  else if a = Action.WEST ∧ 0 < col then some (m.rc_to_i row (col - 1))
  else if a = Action.EAST ∧ col < m.width - 1 then some (m.rc_to_i row (col + 1))
  else none

/-- One iteration of the movement loop of `Game.__determine_new_game_state`
(lines 691-708): reads player `p`'s location in the old state `s`, and if
the target exists behind an existing edge, either moves `p` (weight 1) or
puts `p` in mud (weight > 1) in the new state `ns`. -/
def applyMove (m : Maze) (s : GameState) (a : String → Action) (ns : GameState)
    (p : String) : GameState :=
  let loc := s.player_locations p
  match actionTarget m loc (a p) with
  | none => ns
  | some target =>
    if m.i_exists target ∧ m.has_edge loc target then
      let weight := m.get_weight loc target
      if weight = 1 then
        { ns with player_locations := Function.update ns.player_locations p target }
      else if 1 < weight then
        { ns with muds := Function.update ns.muds p ⟨some target, (weight : Int)⟩ }
      else ns
    else ns

/-- One iteration of the mud loop of `Game.__determine_new_game_state`
(lines 710-716): every player in mud in the new state has its counter
decremented; at zero the player teleports to the stored target and the
record is cleared. -/
def advanceMud (ns : GameState) (p : String) : GameState :=
  match (ns.muds p).target with
  | none => ns
  | some t =>
    let newCount := (ns.muds p).count - 1
    if newCount = 0 then
      { ns with
        player_locations := Function.update ns.player_locations p t,
        muds := Function.update ns.muds p ⟨none, newCount⟩ }
    else
      { ns with muds := Function.update ns.muds p ⟨some t, newCount⟩ }

/-- Inner loop of the cheese step (`Game.__determine_new_game_state`,
lines 721-722): add `amt` to one occupant's score. -/
def scoreShare (amt : ℚ) (a2 : GameState) (q : String) : GameState :=
  { a2 with score_per_player :=
      Function.update a2.score_per_player q (a2.score_per_player q + amt) }

/-- One iteration of the cheese loop of `Game.__determine_new_game_state`
(lines 718-724): occupants of cell `c` (post-movement locations) each gain
`1 / len(occupants)`, and if there is at least one occupant the cheese is
removed from the new state's cheese list. -/
def collectCheese (players : List String) (acc : GameState) (c : Nat) : GameState :=
  let occ := players.filter (fun p => acc.player_locations p = c)
  let acc2 := occ.foldl (scoreShare (1 / (occ.length : ℚ))) acc
  if 0 < occ.length then { acc2 with cheese := acc2.cheese.erase c } else acc2

/-- `Game.__determine_new_game_state` (lines 665-732): increment the turn
counter, run the movement loop, the mud loop, then the cheese loop, each
over the registered players / the old state's cheese list in order.
(The player-trace bookkeeping for the GUI does not touch the game state
and is not modelled.) -/
def determineNewGameState (players : List String) (m : Maze) (s : GameState)
    (a : String → Action) : GameState :=
  let ns0 : GameState := { s with turn := s.turn + 1 }
  let ns1 := players.foldl (applyMove m s a) ns0
  let ns2 := players.foldl advanceMud ns1
  s.cheese.foldl (collectCheese players) ns2

/-- The statistics bucket chosen for a player's turn by `Game.start`
(lines 577-580): a valid non-NOTHING action of a player that did not move
and was not in mud at the start of the turn is tallied as "wall"; otherwise
the bucket is the action string itself. -/
def tallyBucket (allNames : List String) (turnAction : String)
    (oldLoc newLoc : Nat) (wasInMud : Bool) : String :=
  if turnAction ∈ allNames ∧ turnAction ≠ Action.NOTHING.value ∧
      oldLoc = newLoc ∧ wasInMud = false then "wall"
  else turnAction

/-- Lookup of an `Action` by its string value (`Action(string)` in Python). -/
def actionOfValue (v : String) : Option Action :=
  if v = Action.NOTHING.value then some Action.NOTHING
  else if v = Action.NORTH.value then some Action.NORTH
  else if v = Action.SOUTH.value then some Action.SOUTH
  else if v = Action.EAST.value then some Action.EAST
  else if v = Action.WEST.value then some Action.WEST
  else none

/-- `corrected_actions` of `Game.start` (line 569): the accepted per-turn
string is converted to an `Action` when it is one of the action values, and
defaults to `Action.NOTHING` otherwise. -/
def correctAction (turnAction : String) : Action :=
  if turnAction ∈ allActionNames then (actionOfValue turnAction).getD Action.NOTHING
  else Action.NOTHING

/-- The worker boundary of `_player_process_function` (lines 870-879): the
reported action starts as "error"; a returned value inside the `Action`
enum replaces it by its string value, a value outside the enum raises and
leaves "error". -/
def workerTurnAction : Option Action → String
  | some a => a.value
  | none => "error"

/-- `available_cells` of `Game.start` (line 495): maze vertices not holding
any player's initial location. -/
def availableCells (m : Maze) (players : List String) (locs : String → Nat) : List Nat :=
  m.vertices.filter (fun i => decide (∀ p ∈ players, locs p ≠ i))

/-- `Game.__distribute_cheese` (lines 736-784): a fixed cheese list is used
as is; otherwise the available cells are shuffled (the shuffled list is a
parameter here, constrained to be a permutation where it matters) and the
first `nb_cheese` of them are taken. -/
def distributeCheese (fixedCheese : Option (List Nat)) (nbCheese : Nat)
    (shuffledAvailable : List Nat) : List Nat :=
  match fixedCheese with
  | some fc => fc
  | none => shuffledAvailable.take nbCheese

/-- Squared Euclidean distance between the `(row, col)` coordinates of two
cell indices; `math.dist` in `Game.add_player` compares the square roots of
these values, which orders them identically. -/
def sqDist (m : Maze) (v1 v2 : Nat) : Int :=
  (((m.i_to_rc v1).1 : Int) - ((m.i_to_rc v2).1 : Int)) ^ 2 +
    (((m.i_to_rc v1).2 : Int) - ((m.i_to_rc v2).2 : Int)) ^ 2

/-- The closest-valid-cell fallback of `Game.add_player` (lines 354-358):
the vertex minimizing the distance to `c`, earliest vertex winning ties
(Python's `min` over `(value, index)` pairs). -/
def closestCell (m : Maze) (c : Nat) : Nat :=
  match m.vertices with
  | [] => 0
  | v :: vs => vs.foldl (fun best cell =>
      if sqDist m c cell < sqDist m c best then cell else best) v

/-- The location finally stored by `Game.add_player` (lines 350-358) for a
corrected starting location: kept when it exists in the maze, otherwise
replaced by the closest existing cell. -/
def correctedToLocation (m : Maze) (corrected : Nat) : Nat :=
  if m.i_exists corrected then corrected else closestCell m corrected

/-- The per-player action tallies and turn counter of the statistics
record built by `Game.start` (durations and preprocessing phases are
timing data, outside this model). -/
structure Stats where
  actions : String → String → Nat
  turns : Int

/-- `stats = {"players": {...: 0 counters}, "turns": -1}` (Game.start,
lines 457-470). -/
def initialStats : Stats :=
  { actions := fun _ _ => 0, turns := -1 }

/-- The statistics update of one resolved turn (Game.start, lines
573-589): each player's turn is tallied in the bucket chosen by
`tallyBucket`, and `stats["turns"]` becomes the old state's turn. -/
def updateStats (players : List String) (st : Stats) (acts : String → String)
    (s s' : GameState) : Stats :=
  { actions := fun p b =>
      if p ∈ players ∧
          b = tallyBucket allActionNames (acts p) (s.player_locations p)
                (s'.player_locations p) (s.is_in_mud p) then
        st.actions p b + 1
      else st.actions p b,
    turns := (s.turn : Int) }

/-- Sequential skeleton of the match loop of `Game.start` (lines 505-593),
driven by the stream of per-player accepted outcome strings, one map per
turn.  In loop order: if some player's outcome is "error" and
`continue_on_error` is false, an exception is raised (line 563) — the
`except` clause of `start` then discards the statistics (lines 596-598),
modelled by `none`; otherwise, while the game is not over, the corrected
actions are resolved and the statistics updated. -/
def runGame (players : List String) (m : Maze) (continue_on_error : Bool) :
    GameState → Stats → List (String → String) → Option Stats
  | _, st, [] => some st
  | s, st, acts :: rest =>
    if players.any (fun p => acts p = "error") && !continue_on_error then none
    else if s.game_over then some st
    else
      let corrected := fun p => correctAction (acts p)
      let s' := determineNewGameState players m s corrected
      runGame players m continue_on_error s' (updateStats players st acts s s') rest

/-- Result of `Game.start`: the returned statistics (`none` models the
empty record `{}`), plus whether the rendering engine's `end` hook ran. -/
structure StartResult where
  stats : Option Stats
  endInvoked : Bool

/-- `Game.start` runs the match loop under a try/except that replaces the
statistics with `{}` on any exception (lines 596-598), then unconditionally
calls `Game.__end`, whose final action invokes the rendering engine's `end`
hook (line 661). -/
def startRun (players : List String) (m : Maze) (continue_on_error : Bool)
    (s : GameState) (st : Stats) (outcomes : List (String → String)) : StartResult :=
  { stats := runGame players m continue_on_error s st outcomes,
    endInvoked := true }

/-- States reachable from `s` by resolve steps with arbitrary accepted
actions. -/
inductive Reachable (players : List String) (m : Maze) (s : GameState) :
    GameState → Prop where
  | refl : Reachable players m s s
  | step {t : GameState} (a : String → Action) :
      Reachable players m s t →
      Reachable players m s (determineNewGameState players m t a)

/-- The quantity `sum(score_per_player)` over the registered players. -/
def sumScores (players : List String) (s : GameState) : ℚ :=
  (players.map s.score_per_player).sum

/-- The termination predicate exactly as the specification words it: the
match is terminal when no cheese remains, or when every team scoring below
the current maximum team score cannot reach or exceed that maximum even
after adding ALL remaining cheese to its score.  Stated only for
comparison with the code's `GameState.game_over`. -/
def claimedTerminal (s : GameState) : Bool :=
  let spt := s.get_score_per_team
  let max_score := (spt.map Prod.snd).foldr max 0
  decide (s.cheese.length = 0) ||
    spt.all (fun t =>
      !(decide (t.2 < max_score) &&
        decide (max_score ≤ t.2 + (s.cheese.length : ℚ))))

/-! ### Concrete fixtures used in counterexamples and witnesses -/

/-- A 1-row, 2-column maze whose single edge has weight 3 (mud). -/
def mud3Maze : Maze :=
  { width := 2, height := 1, vertices := [0, 1],
    edges := fun v1 v2 =>
      if (v1 = 0 ∧ v2 = 1) ∨ (v1 = 1 ∧ v2 = 0) then some 3 else none }

/-- A 1-row, 3-column maze with weight-1 edges between 0-1 and 1-2. -/
def lineMaze : Maze :=
  { width := 3, height := 1, vertices := [0, 1, 2],
    edges := fun v1 v2 =>
      if (v1 = 0 ∧ v2 = 1) ∨ (v1 = 1 ∧ v2 = 0) ∨
          (v1 = 1 ∧ v2 = 2) ∨ (v1 = 2 ∧ v2 = 1) then some 1 else none }

/-- A 1-row, 3-column maze where only the 0-1 edge exists: cells 1 and 2
are separated by a wall. -/
def wallMaze : Maze :=
  { width := 3, height := 1, vertices := [0, 1, 2],
    edges := fun v1 v2 =>
      if (v1 = 0 ∧ v2 = 1) ∨ (v1 = 1 ∧ v2 = 0) then some 1 else none }

/-- One player "a" on cell 0 of an otherwise empty board. -/
def mudState0 : GameState :=
  { player_locations := fun _ => 0,
    score_per_player := fun _ => 0,
    muds := fun _ => ⟨none, 0⟩,
    teams := [("A", ["a"])],
    cheese := [],
    turn := 0 }

/-- Player "a" on cell 1 of `wallMaze` (EAST is a wall). -/
def wallState : GameState :=
  { player_locations := fun _ => 1,
    score_per_player := fun _ => 0,
    muds := fun _ => ⟨none, 0⟩,
    teams := [("A", ["a"])],
    cheese := [],
    turn := 2 }

/-- Players "a" (cell 0) and "b" (cell 2) with one cheese on cell 1. -/
def splitState2 : GameState :=
  { player_locations := fun p => if p = "a" then 0 else 2,
    score_per_player := fun _ => 0,
    muds := fun _ => ⟨none, 0⟩,
    teams := [("A", ["a"]), ("B", ["b"])],
    cheese := [1],
    turn := 3 }

/-- Actions: "a" moves EAST, everyone else WEST. -/
def splitActs2 : String → Action :=
  fun p => if p = "a" then Action.EAST else Action.WEST

/-- Players "a" (cell 0), "b" (cell 2), "c" (cell 1) with cheese on 1. -/
def splitState3 : GameState :=
  { player_locations := fun p => if p = "a" then 0 else if p = "b" then 2 else 1,
    score_per_player := fun _ => 0,
    muds := fun _ => ⟨none, 0⟩,
    teams := [("A", ["a"]), ("B", ["b"]), ("C", ["c"])],
    cheese := [1],
    turn := 3 }

/-- Actions: "a" EAST, "b" WEST, everyone else NOTHING. -/
def splitActs3 : String → Action :=
  fun p => if p = "a" then Action.EAST else if p = "b" then Action.WEST
    else Action.NOTHING

/-- Three one-player teams with scores 10, 3, 3 and two cheese left:
the two trailing teams are tied. -/
def tieState : GameState :=
  { player_locations := fun _ => 0,
    score_per_player := fun p => if p = "a" then 10 else 3,
    muds := fun _ => ⟨none, 0⟩,
    teams := [("A", ["a"]), ("B", ["b"]), ("C", ["c"])],
    cheese := [0, 1],
    turn := 7 }

/-- Three one-player teams with scores 10, 5, 1 and two cheese left:
all rankings are frozen. -/
def leadState : GameState :=
  { player_locations := fun _ => 0,
    score_per_player := fun p => if p = "a" then 10 else if p = "b" then 5 else 1,
    muds := fun _ => ⟨none, 0⟩,
    teams := [("A", ["a"]), ("B", ["b"]), ("C", ["c"])],
    cheese := [0, 1],
    turn := 7 }

/-! ### Frame and congruence lemmas for the three loops of the resolver -/

lemma applyMove_score (m : Maze) (s : GameState) (a : String → Action)
    (ns : GameState) (q : String) :
    (applyMove m s a ns q).score_per_player = ns.score_per_player := by
  unfold applyMove
  dsimp only
  split
  · rfl
  · split
    · split
      · rfl
      · split <;> rfl
    · rfl

lemma applyMove_cheese (m : Maze) (s : GameState) (a : String → Action)
    (ns : GameState) (q : String) :
    (applyMove m s a ns q).cheese = ns.cheese := by
  unfold applyMove
  dsimp only
  split
  · rfl
  · split
    · split
      · rfl
      · split <;> rfl
    · rfl

lemma applyMove_loc_other (m : Maze) (s : GameState) (a : String → Action)
    (ns : GameState) (q p : String) (hpq : p ≠ q) :
    (applyMove m s a ns q).player_locations p = ns.player_locations p := by
  unfold applyMove
  dsimp only
  split
  · rfl
  · split
    · split
      · simp [Function.update_noteq hpq]
      · split <;> rfl
    · rfl

lemma applyMove_muds_other (m : Maze) (s : GameState) (a : String → Action)
    (ns : GameState) (q p : String) (hpq : p ≠ q) :
    (applyMove m s a ns q).muds p = ns.muds p := by
  unfold applyMove
  dsimp only
  split
  · rfl
  · split
    · split
      · rfl
      · split
        · simp [Function.update_noteq hpq]
        · rfl
    · rfl

lemma applyMove_congr_at (m : Maze) (s : GameState) (a : String → Action)
    (ns1 ns2 : GameState) (p : String)
    (hl : ns1.player_locations p = ns2.player_locations p)
    (hm : ns1.muds p = ns2.muds p) :
    (applyMove m s a ns1 p).player_locations p =
      (applyMove m s a ns2 p).player_locations p ∧
    (applyMove m s a ns1 p).muds p = (applyMove m s a ns2 p).muds p := by
  unfold applyMove
  dsimp only
  split
  · exact ⟨hl, hm⟩
  · split
    · split
      · simp [Function.update_same, hm]
      · split
        · simp [Function.update_same, hl]
        · exact ⟨hl, hm⟩
    · exact ⟨hl, hm⟩

lemma advanceMud_score (ns : GameState) (q : String) :
    (advanceMud ns q).score_per_player = ns.score_per_player := by
  unfold advanceMud
  cases (ns.muds q).target with
  | none => rfl
  | some t =>
    dsimp only
    split <;> rfl

lemma advanceMud_cheese (ns : GameState) (q : String) :
    (advanceMud ns q).cheese = ns.cheese := by
  unfold advanceMud
  cases (ns.muds q).target with
  | none => rfl
  | some t =>
    dsimp only
    split <;> rfl

lemma advanceMud_loc_other (ns : GameState) (q p : String) (hpq : p ≠ q) :
    (advanceMud ns q).player_locations p = ns.player_locations p := by
  unfold advanceMud
  cases (ns.muds q).target with
  | none => rfl
  | some t =>
    dsimp only
    split
    · simp [Function.update_noteq hpq]
    · rfl

lemma advanceMud_muds_other (ns : GameState) (q p : String) (hpq : p ≠ q) :
    (advanceMud ns q).muds p = ns.muds p := by
  unfold advanceMud
  cases (ns.muds q).target with
  | none => rfl
  | some t =>
    dsimp only
    split <;> simp [Function.update_noteq hpq]

lemma foldl_applyMove_score (m : Maze) (s : GameState) (a : String → Action)
    (l : List String) (ns : GameState) :
    (l.foldl (applyMove m s a) ns).score_per_player = ns.score_per_player := by
  induction l generalizing ns with
  | nil => rfl
  | cons q l ih => rw [List.foldl_cons, ih, applyMove_score]

lemma foldl_applyMove_cheese (m : Maze) (s : GameState) (a : String → Action)
    (l : List String) (ns : GameState) :
    (l.foldl (applyMove m s a) ns).cheese = ns.cheese := by
  induction l generalizing ns with
  | nil => rfl
  | cons q l ih => rw [List.foldl_cons, ih, applyMove_cheese]

lemma foldl_applyMove_frame (m : Maze) (s : GameState) (a : String → Action)
    (l : List String) (p : String) (hp : p ∉ l) (ns : GameState) :
    (l.foldl (applyMove m s a) ns).player_locations p = ns.player_locations p ∧
    (l.foldl (applyMove m s a) ns).muds p = ns.muds p := by
  induction l generalizing ns with
  | nil => exact ⟨rfl, rfl⟩
  | cons q l ih =>
    have hpq : p ≠ q := fun h => hp (h ▸ List.mem_cons_self q l)
    have hpl : p ∉ l := fun h => hp (List.mem_cons_of_mem q h)
    rw [List.foldl_cons]
    exact ⟨((ih hpl _).1).trans (applyMove_loc_other m s a ns q p hpq),
           ((ih hpl _).2).trans (applyMove_muds_other m s a ns q p hpq)⟩

lemma foldl_applyMove_at (m : Maze) (s : GameState) (a : String → Action)
    (l : List String) (p : String) (hnd : l.Nodup) (hp : p ∈ l) (ns : GameState) :
    (l.foldl (applyMove m s a) ns).player_locations p =
      (applyMove m s a ns p).player_locations p ∧
    (l.foldl (applyMove m s a) ns).muds p = (applyMove m s a ns p).muds p := by
  induction l generalizing ns with
  | nil => cases hp
  | cons q l ih =>
    rw [List.foldl_cons]
    rcases List.mem_cons.mp hp with rfl | hpl
    · have hpnl : p ∉ l := (List.nodup_cons.mp hnd).1
      exact foldl_applyMove_frame m s a l p hpnl _
    · have hql : q ∉ l := (List.nodup_cons.mp hnd).1
      have hpq : p ≠ q := fun h => hql (h ▸ hpl)
      have step := ih (List.nodup_cons.mp hnd).2 hpl (applyMove m s a ns q)
      have congr := applyMove_congr_at m s a (applyMove m s a ns q) ns p
        (applyMove_loc_other m s a ns q p hpq)
        (applyMove_muds_other m s a ns q p hpq)
      exact ⟨step.1.trans congr.1, step.2.trans congr.2⟩

lemma advanceMud_congr_at (ns1 ns2 : GameState) (p : String)
    (hl : ns1.player_locations p = ns2.player_locations p)
    (hm : ns1.muds p = ns2.muds p) :
    (advanceMud ns1 p).player_locations p = (advanceMud ns2 p).player_locations p ∧
    (advanceMud ns1 p).muds p = (advanceMud ns2 p).muds p := by
  unfold advanceMud
  rw [hm]
  cases (ns2.muds p).target with
  | none => exact ⟨hl, hm⟩
  | some t =>
    dsimp only
    split
    · simp [Function.update_same]
    · simp [Function.update_same, hl]

lemma foldl_advanceMud_score (l : List String) (ns : GameState) :
    (l.foldl advanceMud ns).score_per_player = ns.score_per_player := by
  induction l generalizing ns with
  | nil => rfl
  | cons q l ih => rw [List.foldl_cons, ih, advanceMud_score]

lemma foldl_advanceMud_cheese (l : List String) (ns : GameState) :
    (l.foldl advanceMud ns).cheese = ns.cheese := by
  induction l generalizing ns with
  | nil => rfl
  | cons q l ih => rw [List.foldl_cons, ih, advanceMud_cheese]

lemma foldl_advanceMud_frame (l : List String) (p : String) (hp : p ∉ l)
    (ns : GameState) :
    (l.foldl advanceMud ns).player_locations p = ns.player_locations p ∧
    (l.foldl advanceMud ns).muds p = ns.muds p := by
  induction l generalizing ns with
  | nil => exact ⟨rfl, rfl⟩
  | cons q l ih =>
    have hpq : p ≠ q := fun h => hp (h ▸ List.mem_cons_self q l)
    have hpl : p ∉ l := fun h => hp (List.mem_cons_of_mem q h)
    rw [List.foldl_cons]
    exact ⟨((ih hpl _).1).trans (advanceMud_loc_other ns q p hpq),
           ((ih hpl _).2).trans (advanceMud_muds_other ns q p hpq)⟩

lemma foldl_advanceMud_at (l : List String) (p : String) (hnd : l.Nodup)
    (hp : p ∈ l) (ns : GameState) :
    (l.foldl advanceMud ns).player_locations p = (advanceMud ns p).player_locations p ∧
    (l.foldl advanceMud ns).muds p = (advanceMud ns p).muds p := by
  induction l generalizing ns with
  | nil => cases hp
  | cons q l ih =>
    rw [List.foldl_cons]
    rcases List.mem_cons.mp hp with rfl | hpl
    · have hpnl : p ∉ l := (List.nodup_cons.mp hnd).1
      exact foldl_advanceMud_frame l p hpnl _
    · have hql : q ∉ l := (List.nodup_cons.mp hnd).1
      have hpq : p ≠ q := fun h => hql (h ▸ hpl)
      have step := ih (List.nodup_cons.mp hnd).2 hpl (advanceMud ns q)
      have congr := advanceMud_congr_at (advanceMud ns q) ns p
        (advanceMud_loc_other ns q p hpq)
        (advanceMud_muds_other ns q p hpq)
      exact ⟨step.1.trans congr.1, step.2.trans congr.2⟩

lemma foldl_scoreShare_loc (amt : ℚ) (os : List String) (acc : GameState) :
    (os.foldl (scoreShare amt) acc).player_locations = acc.player_locations := by
  induction os generalizing acc with
  | nil => rfl
  | cons q os ih => rw [List.foldl_cons]; exact ih _

lemma foldl_scoreShare_muds (amt : ℚ) (os : List String) (acc : GameState) :
    (os.foldl (scoreShare amt) acc).muds = acc.muds := by
  induction os generalizing acc with
  | nil => rfl
  | cons q os ih => rw [List.foldl_cons]; exact ih _

lemma foldl_scoreShare_cheese (amt : ℚ) (os : List String) (acc : GameState) :
    (os.foldl (scoreShare amt) acc).cheese = acc.cheese := by
  induction os generalizing acc with
  | nil => rfl
  | cons q os ih => rw [List.foldl_cons]; exact ih _

lemma scoreShare_score_other (amt : ℚ) (acc : GameState) (q p : String)
    (hpq : p ≠ q) :
    (scoreShare amt acc q).score_per_player p = acc.score_per_player p := by
  simp [scoreShare, Function.update_noteq hpq]

lemma foldl_scoreShare_score_not_mem (amt : ℚ) (os : List String) (p : String)
    (hp : p ∉ os) (acc : GameState) :
    (os.foldl (scoreShare amt) acc).score_per_player p = acc.score_per_player p := by
  induction os generalizing acc with
  | nil => rfl
  | cons q os ih =>
    have hpq : p ≠ q := fun h => hp (h ▸ List.mem_cons_self q os)
    have hpl : p ∉ os := fun h => hp (List.mem_cons_of_mem q h)
    rw [List.foldl_cons, ih hpl, scoreShare_score_other amt acc q p hpq]

lemma foldl_scoreShare_score_mem (amt : ℚ) (os : List String) (p : String)
    (hnd : os.Nodup) (hp : p ∈ os) (acc : GameState) :
    (os.foldl (scoreShare amt) acc).score_per_player p =
      acc.score_per_player p + amt := by
  induction os generalizing acc with
  | nil => cases hp
  | cons q os ih =>
    rw [List.foldl_cons]
    rcases List.mem_cons.mp hp with rfl | hpl
    · have hpnl : p ∉ os := (List.nodup_cons.mp hnd).1
      rw [foldl_scoreShare_score_not_mem amt os p hpnl]
      simp [scoreShare, Function.update_same]
    · have hql : q ∉ os := (List.nodup_cons.mp hnd).1
      have hpq : p ≠ q := fun h => hql (h ▸ hpl)
      rw [ih (List.nodup_cons.mp hnd).2 hpl, scoreShare_score_other amt acc q p hpq]

lemma foldl_scoreShare_score_mono (amt : ℚ) (hamt : 0 ≤ amt) (os : List String)
    (acc : GameState) (p : String) :
    acc.score_per_player p ≤ (os.foldl (scoreShare amt) acc).score_per_player p := by
  induction os generalizing acc with
  | nil => exact le_refl _
  | cons q os ih =>
    rw [List.foldl_cons]
    refine le_trans ?_ (ih (scoreShare amt acc q))
    by_cases hpq : p = q
    · subst hpq
      simp only [scoreShare, Function.update_same]
      linarith
    · rw [scoreShare_score_other amt acc q p hpq]

lemma collectCheese_empty_occ (players : List String) (acc : GameState) (c : Nat)
    (h : players.filter (fun p => acc.player_locations p = c) = []) :
    collectCheese players acc c = acc := by
  unfold collectCheese
  rw [h]
  rfl

lemma collectCheese_score_other (players : List String) (acc : GameState)
    (c : Nat) (p : String) (hloc : acc.player_locations p ≠ c) :
    (collectCheese players acc c).score_per_player p = acc.score_per_player p := by
  unfold collectCheese
  dsimp only
  have hp : p ∉ players.filter (fun q => acc.player_locations q = c) := by
    intro hmem
    exact hloc (of_decide_eq_true (List.mem_filter.mp hmem).2)
  split
  · exact foldl_scoreShare_score_not_mem _ _ p hp _
  · exact foldl_scoreShare_score_not_mem _ _ p hp _

lemma collectCheese_score_occupant (players : List String) (acc : GameState)
    (c : Nat) (p : String) (hnd : players.Nodup) (hp : p ∈ players)
    (hloc : acc.player_locations p = c) :
    (collectCheese players acc c).score_per_player p =
      acc.score_per_player p +
        1 / ((players.filter (fun q => acc.player_locations q = c)).length : ℚ) := by
  unfold collectCheese
  dsimp only
  have hpo : p ∈ players.filter (fun q => acc.player_locations q = c) :=
    List.mem_filter.mpr ⟨hp, decide_eq_true hloc⟩
  have hndo : (players.filter (fun q => acc.player_locations q = c)).Nodup :=
    hnd.filter _
  split
  · exact foldl_scoreShare_score_mem _ _ p hndo hpo _
  · exact foldl_scoreShare_score_mem _ _ p hndo hpo _

lemma collectCheese_score_mono (players : List String) (acc : GameState)
    (c : Nat) (p : String) :
    acc.score_per_player p ≤ (collectCheese players acc c).score_per_player p := by
  unfold collectCheese
  dsimp only
  have hamt : (0 : ℚ) ≤
      1 / ((players.filter (fun q => acc.player_locations q = c)).length : ℚ) := by
    positivity
  split
  · exact foldl_scoreShare_score_mono _ hamt _ _ p
  · exact foldl_scoreShare_score_mono _ hamt _ _ p

lemma collectCheese_cheese_cases (players : List String) (acc : GameState)
    (c : Nat) :
    (collectCheese players acc c).cheese = acc.cheese.erase c ∨
    (collectCheese players acc c).cheese = acc.cheese := by
  unfold collectCheese
  dsimp only
  split
  · left; rw [foldl_scoreShare_cheese]
  · right; rw [foldl_scoreShare_cheese]

lemma collectCheese_cheese_subset (players : List String) (acc : GameState)
    (c : Nat) : (collectCheese players acc c).cheese ⊆ acc.cheese := by
  rcases collectCheese_cheese_cases players acc c with h | h <;> rw [h]
  · exact (acc.cheese.erase_sublist c).subset
  · exact fun x hx => hx

lemma collectCheese_cheese_nodup (players : List String) (acc : GameState)
    (c : Nat) (h : acc.cheese.Nodup) : (collectCheese players acc c).cheese.Nodup := by
  rcases collectCheese_cheese_cases players acc c with hc | hc <;> rw [hc]
  · exact h.erase c
  · exact h

lemma collectCheese_cheese_occupied (players : List String) (acc : GameState)
    (c : Nat) (h : players.filter (fun p => acc.player_locations p = c) ≠ [])
    (hnd : acc.cheese.Nodup) :
    c ∉ (collectCheese players acc c).cheese := by
  unfold collectCheese
  dsimp only
  rw [if_pos (List.length_pos.mpr h), foldl_scoreShare_cheese]
  exact hnd.not_mem_erase

lemma foldl_collectCheese_cheese_subset (players : List String) (l : List Nat)
    (acc : GameState) :
    (l.foldl (collectCheese players) acc).cheese ⊆ acc.cheese := by
  induction l generalizing acc with
  | nil => exact fun x hx => hx
  | cons c l ih =>
    rw [List.foldl_cons]
    exact fun x hx => collectCheese_cheese_subset players acc c (ih _ hx)

lemma foldl_collectCheese_cheese_nodup (players : List String) (l : List Nat)
    (acc : GameState) (h : acc.cheese.Nodup) :
    (l.foldl (collectCheese players) acc).cheese.Nodup := by
  induction l generalizing acc with
  | nil => exact h
  | cons c l ih =>
    rw [List.foldl_cons]
    exact ih _ (collectCheese_cheese_nodup players acc c h)

lemma collectCheese_loc (players : List String) (acc : GameState) (c : Nat) :
    (collectCheese players acc c).player_locations = acc.player_locations := by
  unfold collectCheese
  dsimp only
  split
  · exact foldl_scoreShare_loc _ _ _
  · exact foldl_scoreShare_loc _ _ _

lemma collectCheese_muds (players : List String) (acc : GameState) (c : Nat) :
    (collectCheese players acc c).muds = acc.muds := by
  unfold collectCheese
  dsimp only
  split
  · exact foldl_scoreShare_muds _ _ _
  · exact foldl_scoreShare_muds _ _ _

lemma foldl_collect_score_frame (players : List String) (l : List Nat)
    (p : String) (acc : GameState) (h : acc.player_locations p ∉ l) :
    (l.foldl (collectCheese players) acc).score_per_player p =
      acc.score_per_player p := by
  induction l generalizing acc with
  | nil => rfl
  | cons c l ih =>
    have hne : acc.player_locations p ≠ c := fun hc => h (hc ▸ List.mem_cons_self c l)
    have hnl : acc.player_locations p ∉ l := fun hc => h (List.mem_cons_of_mem c hc)
    rw [List.foldl_cons,
      ih _ (by rw [collectCheese_loc]; exact hnl),
      collectCheese_score_other players acc c p hne]

lemma foldl_collect_score_mono (players : List String) (l : List Nat)
    (acc : GameState) (p : String) :
    acc.score_per_player p ≤
      (l.foldl (collectCheese players) acc).score_per_player p := by
  induction l generalizing acc with
  | nil => exact le_refl _
  | cons c l ih =>
    rw [List.foldl_cons]
    exact le_trans (collectCheese_score_mono players acc c p) (ih _)

lemma foldl_collect_score_at (players : List String) (hnd : players.Nodup)
    (l : List Nat) (hl : l.Nodup) (c : Nat) (hc : c ∈ l) (p : String)
    (hp : p ∈ players) (acc : GameState) (hloc : acc.player_locations p = c) :
    (l.foldl (collectCheese players) acc).score_per_player p =
      acc.score_per_player p +
        1 / ((players.filter (fun q => acc.player_locations q = c)).length : ℚ) := by
  induction l generalizing acc with
  | nil => cases hc
  | cons c' l ih =>
    rw [List.foldl_cons]
    rcases List.mem_cons.mp hc with rfl | hcl
    · have hcl' : c ∉ l := (List.nodup_cons.mp hl).1
      rw [foldl_collect_score_frame players l p _
          (by rw [collectCheese_loc, hloc]; exact hcl'),
        collectCheese_score_occupant players acc c p hnd hp hloc]
    · have hc'l : c' ∉ l := (List.nodup_cons.mp hl).1
      have hne : c ≠ c' := fun h => hc'l (h ▸ hcl)
      rw [ih (List.nodup_cons.mp hl).2 hcl _ (by rw [collectCheese_loc]; exact hloc),
        collectCheese_score_other players acc c' p (by rw [hloc]; exact hne),
        collectCheese_loc]

lemma foldl_collect_cheese_removed (players : List String) (l : List Nat)
    (hl : l.Nodup) (c : Nat) (hc : c ∈ l) (acc : GameState)
    (hocc : players.filter (fun q => acc.player_locations q = c) ≠ [])
    (hnd : acc.cheese.Nodup) :
    c ∉ (l.foldl (collectCheese players) acc).cheese := by
  induction l generalizing acc with
  | nil => cases hc
  | cons c' l ih =>
    rw [List.foldl_cons]
    rcases List.mem_cons.mp hc with rfl | hcl
    · have hnotmem := collectCheese_cheese_occupied players acc c hocc hnd
      exact fun hmem =>
        hnotmem (foldl_collectCheese_cheese_subset players l _ hmem)
    · exact ih (List.nodup_cons.mp hl).2 hcl _
        (by rw [collectCheese_loc]; exact hocc)
        (collectCheese_cheese_nodup players acc c' hnd)

lemma sum_map_update (players : List String) (hnd : players.Nodup)
    (f : String → ℚ) (q : String) (hq : q ∈ players) (v : ℚ) :
    (players.map (Function.update f q v)).sum = (players.map f).sum - f q + v := by
  induction players with
  | nil => cases hq
  | cons r l ih =>
    rcases List.mem_cons.mp hq with rfl | hql
    · have hqnl : q ∉ l := (List.nodup_cons.mp hnd).1
      have htail : l.map (Function.update f q v) = l.map f :=
        List.map_congr_left fun x hx =>
          Function.update_noteq (by rintro rfl; exact hqnl hx) v f
      rw [List.map_cons, List.map_cons, List.sum_cons, List.sum_cons, htail,
        Function.update_same]
      ring
    · have hrl : r ∉ l := (List.nodup_cons.mp hnd).1
      have hqr : r ≠ q := by rintro rfl; exact hrl hql
      rw [List.map_cons, List.map_cons, List.sum_cons, List.sum_cons,
        ih (List.nodup_cons.mp hnd).2 hql, Function.update_noteq hqr]
      ring

lemma foldl_scoreShare_sum (players : List String) (hnd : players.Nodup)
    (os : List String) (hos : ∀ x ∈ os, x ∈ players) (amt : ℚ) (acc : GameState) :
    (players.map (os.foldl (scoreShare amt) acc).score_per_player).sum =
      (players.map acc.score_per_player).sum + os.length * amt := by
  induction os generalizing acc with
  | nil => simp
  | cons q os ih =>
    rw [List.foldl_cons, ih (fun x hx => hos x (List.mem_cons_of_mem q hx))]
    have hstep : (players.map (scoreShare amt acc q).score_per_player).sum =
        (players.map acc.score_per_player).sum + amt := by
      show (players.map (Function.update acc.score_per_player q
        (acc.score_per_player q + amt))).sum = _
      rw [sum_map_update players hnd _ q (hos q (List.mem_cons_self q os))]
      ring
    rw [hstep, List.length_cons]
    push_cast
    ring

lemma collectCheese_conservation (players : List String) (hnd : players.Nodup)
    (acc : GameState) (c : Nat) (hcc : c ∈ acc.cheese) :
    (players.map (collectCheese players acc c).score_per_player).sum +
        ((collectCheese players acc c).cheese.length : ℚ) =
      (players.map acc.score_per_player).sum + (acc.cheese.length : ℚ) := by
  unfold collectCheese
  dsimp only
  set occ := players.filter (fun p => acc.player_locations p = c) with hocc
  have hsum := foldl_scoreShare_sum players hnd occ
    (fun x hx => (List.mem_filter.mp hx).1) (1 / (occ.length : ℚ)) acc
  split
  · rename_i hpos
    have hlen : (occ.length : ℚ) ≠ 0 := Nat.cast_ne_zero.mpr (by omega)
    have hone : (occ.length : ℚ) * (1 / (occ.length : ℚ)) = 1 := by
      field_simp
    have hcpos : 1 ≤ acc.cheese.length := List.length_pos.mpr
      (fun he => by rw [he] at hcc; cases hcc)
    have herase : ((acc.cheese.erase c).length : ℚ) =
        (acc.cheese.length : ℚ) - 1 := by
      rw [List.length_erase_of_mem hcc]
      push_cast [hcpos]
      ring
    rw [foldl_scoreShare_cheese, hsum, hone, herase]
    ring
  · rename_i hzero
    have h0 : occ.length = 0 := by omega
    rw [hsum, h0, foldl_scoreShare_cheese]
    simp

lemma foldl_collectCheese_loc (players : List String) (l : List Nat)
    (acc : GameState) :
    (l.foldl (collectCheese players) acc).player_locations = acc.player_locations := by
  induction l generalizing acc with
  | nil => rfl
  | cons c l ih => rw [List.foldl_cons, ih, collectCheese_loc]

lemma foldl_collectCheese_muds (players : List String) (l : List Nat)
    (acc : GameState) :
    (l.foldl (collectCheese players) acc).muds = acc.muds := by
  induction l generalizing acc with
  | nil => rfl
  | cons c l ih => rw [List.foldl_cons, ih, collectCheese_muds]

lemma applyMove_self_blocked (m : Maze) (s : GameState) (a : String → Action)
    (ns : GameState) (p : String)
    (h : actionTarget m (s.player_locations p) (a p) = none) :
    applyMove m s a ns p = ns := by
  unfold applyMove
  dsimp only
  rw [h]

lemma applyMove_self_noedge (m : Maze) (s : GameState) (a : String → Action)
    (ns : GameState) (p : String) (t : Nat)
    (h : actionTarget m (s.player_locations p) (a p) = some t)
    (hg : ¬(m.i_exists t = true ∧ m.has_edge (s.player_locations p) t = true)) :
    applyMove m s a ns p = ns := by
  unfold applyMove
  dsimp only
  rw [h]
  dsimp only
  rw [if_neg hg]

lemma applyMove_self_move (m : Maze) (s : GameState) (a : String → Action)
    (ns : GameState) (p : String) (t : Nat)
    (h : actionTarget m (s.player_locations p) (a p) = some t)
    (he : m.i_exists t = true) (hed : m.has_edge (s.player_locations p) t = true)
    (hw : m.get_weight (s.player_locations p) t = 1) :
    applyMove m s a ns p =
      { ns with player_locations := Function.update ns.player_locations p t } := by
  unfold applyMove
  dsimp only
  rw [h]
  dsimp only
  rw [if_pos ⟨he, hed⟩, if_pos hw]

lemma applyMove_self_mud (m : Maze) (s : GameState) (a : String → Action)
    (ns : GameState) (p : String) (t : Nat)
    (h : actionTarget m (s.player_locations p) (a p) = some t)
    (he : m.i_exists t = true) (hed : m.has_edge (s.player_locations p) t = true)
    (hw : 1 < m.get_weight (s.player_locations p) t) :
    applyMove m s a ns p =
      { ns with muds :=
          Function.update ns.muds p ⟨some t, (m.get_weight (s.player_locations p) t : Int)⟩ } := by
  unfold applyMove
  dsimp only
  rw [h]
  dsimp only
  rw [if_pos ⟨he, hed⟩, if_neg (by omega), if_pos hw]

lemma advanceMud_not_in_mud (ns : GameState) (p : String)
    (h : (ns.muds p).target = none) : advanceMud ns p = ns := by
  unfold advanceMud
  rw [h]

lemma advanceMud_tick (ns : GameState) (p : String) (t : Nat)
    (h : (ns.muds p).target = some t) (hc : (ns.muds p).count - 1 ≠ 0) :
    advanceMud ns p =
      { ns with muds := Function.update ns.muds p ⟨some t, (ns.muds p).count - 1⟩ } := by
  unfold advanceMud
  rw [h]
  dsimp only
  rw [if_neg hc]

lemma advanceMud_arrive (ns : GameState) (p : String) (t : Nat)
    (h : (ns.muds p).target = some t) (hc : (ns.muds p).count - 1 = 0) :
    advanceMud ns p =
      { ns with
        player_locations := Function.update ns.player_locations p t,
        muds := Function.update ns.muds p ⟨none, (ns.muds p).count - 1⟩ } := by
  unfold advanceMud
  rw [h]
  dsimp only
  rw [if_pos hc]

lemma foldl_collect_conservation (players : List String) (hndp : players.Nodup)
    (l : List Nat) (hl : l.Nodup) (acc : GameState)
    (hsub : ∀ x ∈ l, x ∈ acc.cheese) (hndc : acc.cheese.Nodup) :
    (players.map (l.foldl (collectCheese players) acc).score_per_player).sum +
        (((l.foldl (collectCheese players) acc).cheese.length : ℚ)) =
      (players.map acc.score_per_player).sum + (acc.cheese.length : ℚ) := by
  induction l generalizing acc with
  | nil => rfl
  | cons c l ih =>
    rw [List.foldl_cons]
    have hcc : c ∈ acc.cheese := hsub c (List.mem_cons_self c l)
    have hstep := collectCheese_conservation players hndp acc c hcc
    have hsub' : ∀ x ∈ l, x ∈ (collectCheese players acc c).cheese := by
      intro x hx
      have hxc : x ≠ c := fun he => (List.nodup_cons.mp hl).1 (he ▸ hx)
      rcases collectCheese_cheese_cases players acc c with h | h <;> rw [h]
      · exact (List.mem_erase_of_ne hxc).mpr (hsub x (List.mem_cons_of_mem c hx))
      · exact hsub x (List.mem_cons_of_mem c hx)
    exact (ih (List.nodup_cons.mp hl).2 _ hsub'
      (collectCheese_cheese_nodup players acc c hndc)).trans hstep

lemma applyMove_turn (m : Maze) (s : GameState) (a : String → Action)
    (ns : GameState) (q : String) : (applyMove m s a ns q).turn = ns.turn := by
  unfold applyMove
  dsimp only
  split
  · rfl
  · split
    · split
      · rfl
      · split <;> rfl
    · rfl

lemma advanceMud_turn (ns : GameState) (q : String) :
    (advanceMud ns q).turn = ns.turn := by
  unfold advanceMud
  cases (ns.muds q).target with
  | none => rfl
  | some t =>
    dsimp only
    split <;> rfl

lemma foldl_scoreShare_turn (amt : ℚ) (os : List String) (acc : GameState) :
    (os.foldl (scoreShare amt) acc).turn = acc.turn := by
  induction os generalizing acc with
  | nil => rfl
  | cons q os ih => rw [List.foldl_cons]; exact ih _

lemma collectCheese_turn (players : List String) (acc : GameState) (c : Nat) :
    (collectCheese players acc c).turn = acc.turn := by
  unfold collectCheese
  dsimp only
  split
  · exact foldl_scoreShare_turn _ _ _
  · exact foldl_scoreShare_turn _ _ _

lemma resolve_turn (players : List String) (m : Maze) (s : GameState)
    (a : String → Action) :
    (determineNewGameState players m s a).turn = s.turn + 1 := by
  unfold determineNewGameState
  dsimp only
  have h3 : ∀ (l : List Nat) (acc : GameState),
      (l.foldl (collectCheese players) acc).turn = acc.turn := by
    intro l
    induction l with
    | nil => intro acc; rfl
    | cons c l ih =>
      intro acc
      rw [List.foldl_cons, ih, collectCheese_turn]
  have h2 : ∀ (l : List String) (acc : GameState),
      (l.foldl advanceMud acc).turn = acc.turn := by
    intro l
    induction l with
    | nil => intro acc; rfl
    | cons q l ih =>
      intro acc
      rw [List.foldl_cons, ih, advanceMud_turn]
  have h1 : ∀ (l : List String) (acc : GameState),
      (l.foldl (applyMove m s a) acc).turn = acc.turn := by
    intro l
    induction l with
    | nil => intro acc; rfl
    | cons q l ih =>
      intro acc
      rw [List.foldl_cons, ih, applyMove_turn]
  rw [h3, h2, h1]

/-- The location and mud record of player `p` after a resolve step are
those produced by `p`'s own movement iteration followed by `p`'s own mud
iteration, starting from the old state. -/
lemma resolve_entries_at (players : List String) (m : Maze) (s : GameState)
    (a : String → Action) (p : String) (hnd : players.Nodup) (hp : p ∈ players) :
    (determineNewGameState players m s a).player_locations p =
      (advanceMud (applyMove m s a { s with turn := s.turn + 1 } p) p).player_locations p ∧
    (determineNewGameState players m s a).muds p =
      (advanceMud (applyMove m s a { s with turn := s.turn + 1 } p) p).muds p := by
  unfold determineNewGameState
  dsimp only
  rw [foldl_collectCheese_loc, foldl_collectCheese_muds]
  have h1 := foldl_applyMove_at m s a players p hnd hp { s with turn := s.turn + 1 }
  have h2 := foldl_advanceMud_at players p hnd hp
    (players.foldl (applyMove m s a) { s with turn := s.turn + 1 })
  have congr := advanceMud_congr_at
    (players.foldl (applyMove m s a) { s with turn := s.turn + 1 })
    (applyMove m s a { s with turn := s.turn + 1 } p) p h1.1 h1.2
  exact ⟨h2.1.trans congr.1, h2.2.trans congr.2⟩

lemma resolve_pre_score (players : List String) (m : Maze) (s : GameState)
    (a : String → Action) :
    (players.foldl advanceMud
        (players.foldl (applyMove m s a) { s with turn := s.turn + 1 })).score_per_player =
      s.score_per_player := by
  rw [foldl_advanceMud_score, foldl_applyMove_score]

lemma resolve_pre_cheese (players : List String) (m : Maze) (s : GameState)
    (a : String → Action) :
    (players.foldl advanceMud
        (players.foldl (applyMove m s a) { s with turn := s.turn + 1 })).cheese =
      s.cheese := by
  rw [foldl_advanceMud_cheese, foldl_applyMove_cheese]

lemma resolve_loc_eq_pre (players : List String) (m : Maze) (s : GameState)
    (a : String → Action) :
    (determineNewGameState players m s a).player_locations =
      (players.foldl advanceMud
        (players.foldl (applyMove m s a) { s with turn := s.turn + 1 })).player_locations :=
  foldl_collectCheese_loc players s.cheese _

lemma resolve_sum_mono (players : List String) (m : Maze) (s : GameState)
    (a : String → Action) :
    sumScores players s ≤ sumScores players (determineNewGameState players m s a) := by
  unfold sumScores
  refine List.sum_le_sum ?_
  intro p _
  have h := foldl_collect_score_mono players s.cheese
    (players.foldl advanceMud
      (players.foldl (applyMove m s a) { s with turn := s.turn + 1 })) p
  rw [resolve_pre_score players m s a] at h
  exact h

lemma resolve_conservation (players : List String) (m : Maze) (s : GameState)
    (a : String → Action) (hnd : players.Nodup) (hndc : s.cheese.Nodup) :
    sumScores players (determineNewGameState players m s a) +
        (((determineNewGameState players m s a).cheese.length : ℚ)) =
      sumScores players s + (s.cheese.length : ℚ) := by
  unfold sumScores
  have h := foldl_collect_conservation players hnd s.cheese hndc
    (players.foldl advanceMud
      (players.foldl (applyMove m s a) { s with turn := s.turn + 1 }))
    (by rw [resolve_pre_cheese players m s a]; exact fun x hx => hx)
    (by rw [resolve_pre_cheese players m s a]; exact hndc)
  rw [resolve_pre_score players m s a, resolve_pre_cheese players m s a] at h
  exact h

lemma resolve_cheese_nodup (players : List String) (m : Maze) (s : GameState)
    (a : String → Action) (hndc : s.cheese.Nodup) :
    (determineNewGameState players m s a).cheese.Nodup := by
  apply foldl_collectCheese_cheese_nodup
  rw [resolve_pre_cheese players m s a]
  exact hndc

lemma actionTarget_nothing (m : Maze) (loc : Nat) :
    actionTarget m loc Action.NOTHING = none := by
  unfold actionTarget
  simp

lemma value_mem_allActionNames (x : Action) : x.value ∈ allActionNames := by
  cases x <;> decide

lemma value_ne_nothing (x : Action) (h : x ≠ Action.NOTHING) :
    x.value ≠ Action.NOTHING.value := by
  cases x <;> first | (exact absurd rfl h) | decide

lemma value_ne_wall (x : Action) : x.value ≠ "wall" := by
  cases x <;> decide

lemma is_in_mud_false_of_target_none (s : GameState) (p : String)
    (h : (s.muds p).target = none) : s.is_in_mud p = false := by
  unfold GameState.is_in_mud
  rw [h]
  rfl

/-! ### Location-validity invariant (for C8) -/

lemma applyMove_inv_at (m : Maze) (s : GameState) (a : String → Action)
    (ns : GameState) (q p : String)
    (hl : ns.player_locations p ∈ m.vertices)
    (hm : ∀ t, (ns.muds p).target = some t → t ∈ m.vertices) :
    (applyMove m s a ns q).player_locations p ∈ m.vertices ∧
    ∀ t, ((applyMove m s a ns q).muds p).target = some t → t ∈ m.vertices := by
  by_cases hpq : p = q
  · subst hpq
    unfold applyMove
    dsimp only
    split
    · exact ⟨hl, hm⟩
    · rename_i target htar
      split
      · rename_i hguard
        have htv : target ∈ m.vertices := of_decide_eq_true hguard.1
        split
        · refine ⟨?_, hm⟩
          dsimp only
          rw [Function.update_same]
          exact htv
        · split
          · refine ⟨hl, ?_⟩
            intro t ht
            dsimp only at ht
            rw [Function.update_same] at ht
            cases ht
            exact htv
          · exact ⟨hl, hm⟩
      · exact ⟨hl, hm⟩
  · rw [applyMove_loc_other m s a ns q p hpq, applyMove_muds_other m s a ns q p hpq]
    exact ⟨hl, hm⟩

lemma advanceMud_inv_at (ns : GameState) (q p : String) (hv : Maze)
    (hl : ns.player_locations p ∈ hv.vertices)
    (hm : ∀ t, (ns.muds p).target = some t → t ∈ hv.vertices) :
    (advanceMud ns q).player_locations p ∈ hv.vertices ∧
    ∀ t, ((advanceMud ns q).muds p).target = some t → t ∈ hv.vertices := by
  by_cases hpq : p = q
  · subst hpq
    unfold advanceMud
    cases htar : (ns.muds p).target with
    | none => exact ⟨hl, hm⟩
    | some t =>
      dsimp only
      split
      · refine ⟨?_, ?_⟩
        · dsimp only
          rw [Function.update_same]
          exact hm t htar
        · intro t' ht'
          dsimp only at ht'
          rw [Function.update_same] at ht'
          cases ht'
      · refine ⟨hl, ?_⟩
        intro t' ht'
        dsimp only at ht'
        rw [Function.update_same] at ht'
        cases ht'
        exact hm t htar
  · rw [advanceMud_loc_other ns q p hpq, advanceMud_muds_other ns q p hpq]
    exact ⟨hl, hm⟩

lemma resolve_inv (players : List String) (m : Maze) (s : GameState)
    (a : String → Action)
    (h : ∀ p ∈ players, s.player_locations p ∈ m.vertices ∧
      ∀ t, (s.muds p).target = some t → t ∈ m.vertices) :
    ∀ p ∈ players, (determineNewGameState players m s a).player_locations p ∈ m.vertices ∧
      ∀ t, ((determineNewGameState players m s a).muds p).target = some t →
        t ∈ m.vertices := by
  have hfold1 : ∀ (l : List String) (acc : GameState),
      (∀ p ∈ players, acc.player_locations p ∈ m.vertices ∧
        ∀ t, (acc.muds p).target = some t → t ∈ m.vertices) →
      ∀ p ∈ players, (l.foldl (applyMove m s a) acc).player_locations p ∈ m.vertices ∧
        ∀ t, ((l.foldl (applyMove m s a) acc).muds p).target = some t → t ∈ m.vertices := by
    intro l
    induction l with
    | nil => intro acc hacc; exact hacc
    | cons q l ih =>
      intro acc hacc
      rw [List.foldl_cons]
      refine ih _ ?_
      intro p hp
      exact applyMove_inv_at m s a acc q p (hacc p hp).1 (hacc p hp).2
  have hfold2 : ∀ (l : List String) (acc : GameState),
      (∀ p ∈ players, acc.player_locations p ∈ m.vertices ∧
        ∀ t, (acc.muds p).target = some t → t ∈ m.vertices) →
      ∀ p ∈ players, (l.foldl advanceMud acc).player_locations p ∈ m.vertices ∧
        ∀ t, ((l.foldl advanceMud acc).muds p).target = some t → t ∈ m.vertices := by
    intro l
    induction l with
    | nil => intro acc hacc; exact hacc
    | cons q l ih =>
      intro acc hacc
      rw [List.foldl_cons]
      refine ih _ ?_
      intro p hp
      exact advanceMud_inv_at acc q p m (hacc p hp).1 (hacc p hp).2
  intro p hp
  have hpre := hfold2 players _
    (hfold1 players { s with turn := s.turn + 1 } (fun p hp => h p hp)) p hp
  constructor
  · rw [resolve_loc_eq_pre players m s a]
    exact hpre.1
  · intro t ht
    refine hpre.2 t ?_
    have hmuds : (determineNewGameState players m s a).muds =
        (players.foldl advanceMud
          (players.foldl (applyMove m s a) { s with turn := s.turn + 1 })).muds :=
      foldl_collectCheese_muds players s.cheese _
    rw [← hmuds]
    exact ht

lemma closestCell_mem (m : Maze) (c : Nat) (hne : m.vertices ≠ []) :
    closestCell m c ∈ m.vertices := by
  have hfold : ∀ (l : List Nat) (best : Nat), best ∈ m.vertices →
      (∀ x ∈ l, x ∈ m.vertices) →
      l.foldl (fun best cell =>
        if sqDist m c cell < sqDist m c best then cell else best) best ∈ m.vertices := by
    intro l
    induction l with
    | nil => intro best hb _; exact hb
    | cons x l ih =>
      intro best hb hl
      rw [List.foldl_cons]
      refine ih _ ?_ (fun y hy => hl y (List.mem_cons_of_mem x hy))
      split
      · exact hl x (List.mem_cons_self x l)
      · exact hb
  obtain ⟨v, vs, hv⟩ := List.exists_cons_of_ne_nil hne
  have hmem := hfold vs v (by rw [hv]; exact List.mem_cons_self v vs)
    (fun y hy => by rw [hv]; exact List.mem_cons_of_mem v hy)
  unfold closestCell
  rw [hv] at hmem ⊢
  exact hmem

lemma correctedToLocation_mem (m : Maze) (c : Nat) (hne : m.vertices ≠ []) :
    correctedToLocation m c ∈ m.vertices := by
  unfold correctedToLocation
  split
  · rename_i h
    exact of_decide_eq_true h
  · exact closestCell_mem m c hne

/-- A player not in mud that crosses an edge of weight `w > 1` stays on
its cell and ends the resolve step with mud record `(target, w - 1)`:
the mud loop decrements the freshly written record in the same step. -/
lemma resolve_mud_entry (players : List String) (m : Maze) (s : GameState)
    (a : String → Action) (p : String) (t : Nat)
    (hnd : players.Nodup) (hp : p ∈ players)
    (htar : actionTarget m (s.player_locations p) (a p) = some t)
    (hex : m.i_exists t = true) (hed : m.has_edge (s.player_locations p) t = true)
    (hw : 1 < m.get_weight (s.player_locations p) t) :
    (determineNewGameState players m s a).player_locations p = s.player_locations p ∧
    (determineNewGameState players m s a).muds p =
      ⟨some t, (m.get_weight (s.player_locations p) t : Int) - 1⟩ := by
  obtain ⟨hl1, hm1⟩ := resolve_entries_at players m s a p hnd hp
  rw [applyMove_self_mud m s a _ p t htar hex hed hw] at hl1 hm1
  have hwz : ((m.get_weight (s.player_locations p) t : Int)) - 1 ≠ 0 := by
    omega
  rw [advanceMud_tick _ p t (by dsimp only; rw [Function.update_same])
    (by dsimp only; rw [Function.update_same]; exact hwz)] at hl1 hm1
  dsimp only at hl1 hm1
  rw [hl1, hm1, Function.update_same, Function.update_same]
  exact ⟨rfl, rfl⟩

/-- A player in mud with more than one turn left, issuing NOTHING, stays
put and its counter goes down by one. -/
lemma resolve_mud_tick (players : List String) (m : Maze) (s : GameState)
    (a : String → Action) (p : String) (t : Nat)
    (hnd : players.Nodup) (hp : p ∈ players) (ha : a p = Action.NOTHING)
    (hmud : (s.muds p).target = some t) (hc : (s.muds p).count - 1 ≠ 0) :
    (determineNewGameState players m s a).player_locations p = s.player_locations p ∧
    (determineNewGameState players m s a).muds p =
      ⟨some t, (s.muds p).count - 1⟩ := by
  obtain ⟨hl1, hm1⟩ := resolve_entries_at players m s a p hnd hp
  rw [applyMove_self_blocked m s a _ p (by rw [ha]; exact actionTarget_nothing m _)]
    at hl1 hm1
  rw [advanceMud_tick { s with turn := s.turn + 1 } p t hmud hc] at hl1 hm1
  dsimp only at hl1 hm1
  rw [hl1, hm1, Function.update_same]
  exact ⟨rfl, rfl⟩

/-- A player in mud with one turn left, issuing NOTHING, teleports to the
stored target and its mud record is cleared. -/
lemma resolve_mud_arrive (players : List String) (m : Maze) (s : GameState)
    (a : String → Action) (p : String) (t : Nat)
    (hnd : players.Nodup) (hp : p ∈ players) (ha : a p = Action.NOTHING)
    (hmud : (s.muds p).target = some t) (hc : (s.muds p).count - 1 = 0) :
    (determineNewGameState players m s a).player_locations p = t ∧
    (determineNewGameState players m s a).muds p = ⟨none, 0⟩ := by
  obtain ⟨hl1, hm1⟩ := resolve_entries_at players m s a p hnd hp
  rw [applyMove_self_blocked m s a _ p (by rw [ha]; exact actionTarget_nothing m _)]
    at hl1 hm1
  rw [advanceMud_arrive { s with turn := s.turn + 1 } p t hmud hc] at hl1 hm1
  dsimp only at hl1 hm1
  rw [hl1, hm1, Function.update_same, Function.update_same, hc]
  exact ⟨rfl, rfl⟩

/-- A player whose accepted action yields no in-bounds target behind an
existing edge — and who is not in mud — keeps both its location and its
mud record through a resolve step. -/
lemma resolve_blocked (players : List String) (m : Maze) (s : GameState)
    (a : String → Action) (p : String)
    (hnd : players.Nodup) (hp : p ∈ players)
    (hmud : (s.muds p).target = none)
    (hblock : actionTarget m (s.player_locations p) (a p) = none ∨
      ∃ t, actionTarget m (s.player_locations p) (a p) = some t ∧
        ¬(m.i_exists t = true ∧ m.has_edge (s.player_locations p) t = true)) :
    (determineNewGameState players m s a).player_locations p = s.player_locations p ∧
    (determineNewGameState players m s a).muds p = s.muds p := by
  obtain ⟨hl1, hm1⟩ := resolve_entries_at players m s a p hnd hp
  have hstep : applyMove m s a { s with turn := s.turn + 1 } p =
      { s with turn := s.turn + 1 } := by
    rcases hblock with h | ⟨t, ht, hg⟩
    · exact applyMove_self_blocked m s a _ p h
    · exact applyMove_self_noedge m s a _ p t ht hg
  rw [hstep] at hl1 hm1
  rw [advanceMud_not_in_mud { s with turn := s.turn + 1 } p hmud] at hl1 hm1
  exact ⟨hl1, hm1⟩

/-! ### Evaluation of the rounded team scores on concrete states -/

lemma ratFloor_intCast (n : ℤ) : ((n : ℚ)).floor = n := by
  rw [Rat.floor_def']
  simp

lemma round5_intCast (n : ℤ) : round5 ((n : ℚ)) = (n : ℚ) := by
  have h1 : ((n : ℚ)) * 100000 = ((100000 * n : ℤ) : ℚ) := by push_cast; ring
  simp only [round5, roundHalfToEven, h1, ratFloor_intCast, sub_self]
  rw [if_pos (by norm_num : (0:ℚ) < 1 / 2)]
  push_cast
  field_simp

lemma spt_tie : tieState.get_score_per_team = [("A", 10), ("B", 3), ("C", 3)] := by
  show [("A", round5 _), ("B", round5 _), ("C", round5 _)] = _
  norm_num [tieState]
  refine ⟨?_, ?_, ?_⟩
  · exact_mod_cast round5_intCast 10
  · exact_mod_cast round5_intCast 3
  · exact_mod_cast round5_intCast 3

lemma spt_lead : leadState.get_score_per_team = [("A", 10), ("B", 5), ("C", 1)] := by
  show [("A", round5 _), ("B", round5 _), ("C", round5 _)] = _
  norm_num [leadState]
  refine ⟨?_, ?_, ?_⟩
  · exact_mod_cast round5_intCast 10
  · exact_mod_cast round5_intCast 5
  · exact_mod_cast round5_intCast 1

/-- The inner double loop of `game_over`, as a proposition: the flag
survives iff no ordered pair of distinct teams is tied or able to catch
up. -/
lemma game_over_all_iff (s : GameState) :
    (s.get_score_per_team.all (fun t1 => s.get_score_per_team.all (fun t2 =>
      !(decide (t1.1 ≠ t2.1) &&
        (decide (t1.2 = t2.2) ||
         (decide (t1.2 < t2.2) && decide (t2.2 ≤ t1.2 + (s.cheese.length : ℚ))))))) = true) ↔
    (∀ t1 ∈ s.get_score_per_team, ∀ t2 ∈ s.get_score_per_team,
      ¬(t1.1 ≠ t2.1 ∧ (t1.2 = t2.2 ∨
        (t1.2 < t2.2 ∧ t2.2 ≤ t1.2 + (s.cheese.length : ℚ))))) := by
  simp only [List.all_eq_true, Bool.not_eq_true', Bool.and_eq_false_iff,
    Bool.or_eq_false_iff, decide_eq_false_iff_not, not_not, Bool.and_eq_true,
    decide_eq_true_eq]
  constructor
  · intro h t1 h1 t2 h2 hcon
    rcases h t1 h1 t2 h2 with hn | ⟨he, hc⟩
    · exact hcon.1 hn
    · rcases hcon.2 with h' | h'
      · exact he h'
      · rcases hc with hlt | hle
        · exact hlt h'.1
        · exact hle h'.2
  · intro h t1 h1 t2 h2
    by_cases hn : t1.1 = t2.1
    · exact Or.inl hn
    · refine Or.inr ⟨?_, ?_⟩
      · intro he
        exact h t1 h1 t2 h2 ⟨hn, Or.inl he⟩
      · by_cases hlt : t1.2 < t2.2
        · right
          intro hle
          exact h t1 h1 t2 h2 ⟨hn, Or.inr ⟨hlt, hle⟩⟩
        · exact Or.inl hlt

lemma tie_game_over_false : tieState.game_over = false := by
  unfold GameState.game_over
  rw [if_neg (by decide : ¬(tieState.cheese.length = 0))]
  dsimp only
  rw [if_pos (by decide : 1 < tieState.get_score_per_team.length)]
  rw [Bool.eq_false_iff]
  intro hall
  rw [game_over_all_iff tieState] at hall
  exact hall ("B", 3) (by rw [spt_tie]; simp) ("C", 3) (by rw [spt_tie]; simp)
    ⟨by decide, Or.inl rfl⟩

lemma claimed_tie_true : claimedTerminal tieState = true := by
  have h1 : max (3:ℚ) 0 = 3 := max_eq_left (by norm_num)
  have h2 : max (3:ℚ) 3 = 3 := max_eq_left le_rfl
  have h3 : max (10:ℚ) 3 = 10 := max_eq_left (by norm_num)
  unfold claimedTerminal
  rw [spt_tie]
  simp only [List.map_cons, List.map_nil, List.foldr_cons, List.foldr_nil, h1, h2, h3]
  rw [Bool.or_eq_true]
  right
  rw [List.all_eq_true]
  intro t ht
  have hlen : ((tieState.cheese.length : ℚ)) = 2 := by norm_num [tieState]
  simp only [List.mem_cons, List.not_mem_nil, or_false] at ht
  rcases ht with rfl | rfl | rfl <;>
    simp only [Bool.not_eq_true', Bool.and_eq_false_iff, decide_eq_false_iff_not,
      not_lt, not_le, hlen]
  · left; norm_num
  · right; norm_num
  · right; norm_num

lemma tie_game_over_2024_false : tieState.game_over_2024 = false := by
  unfold GameState.game_over_2024
  have hlen : tieState.cheese.length = 2 := rfl
  simp only [hlen]
  simp

/-! ### Claim C1 -/

/-- C1, counterexample.  With team scores (10, 3, 3) and 2 cheese
remaining, the claimed termination predicate (spec §4.2) says the match is
over, but `GameState.game_over` — of both revisions of the engine — says
it is not: the tie between the two trailing teams clears the
`is_over` flag through the `score_per_team[team1] == score_per_team[team2]`
disjunct, so a tie between trailing teams DOES prevent termination. -/
theorem C1_counterexample :
    claimedTerminal tieState = true ∧ tieState.game_over = false ∧
      tieState.game_over_2024 = false :=
  ⟨claimed_tie_true, tie_game_over_false, tie_game_over_2024_false⟩

/-- C1, amended.  The match is terminal exactly when no cheese remains,
or when there are at least two teams and the ranking is completely frozen:
the (rounded) scores of any two distinct teams differ, and a team scoring
below another cannot reach or exceed that team's score even after adding
ALL remaining cheese.  In particular (10, 3, 3) with 2 cheese remaining is
NOT terminal: the trailing teams are tied, and one of them could still
overtake the other. -/
theorem C1_amended_game_over_characterization (s : GameState)
    (hnames : (s.get_score_per_team.map Prod.fst).Nodup) :
    s.game_over = true ↔
      s.cheese = [] ∨
      (1 < s.get_score_per_team.length ∧
        (∀ t1 ∈ s.get_score_per_team, ∀ t2 ∈ s.get_score_per_team,
          t1.1 ≠ t2.1 → t1.2 ≠ t2.2) ∧
        (∀ t1 ∈ s.get_score_per_team, ∀ t2 ∈ s.get_score_per_team,
          t1.2 < t2.2 → t1.2 + (s.cheese.length : ℚ) < t2.2)) := by
  have hinj := List.inj_on_of_nodup_map hnames
  unfold GameState.game_over
  by_cases hch : s.cheese.length = 0
  · rw [if_pos hch]
    simp only [List.length_eq_zero] at hch
    simp [hch]
  · rw [if_neg hch]
    have hch' : s.cheese ≠ [] := fun h => hch (by rw [h]; rfl)
    dsimp only
    by_cases hlen : 1 < s.get_score_per_team.length
    · rw [if_pos hlen, game_over_all_iff s]
      constructor
      · intro h
        refine Or.inr ⟨hlen, ?_, ?_⟩
        · intro t1 h1 t2 h2 hne he
          exact h t1 h1 t2 h2 ⟨hne, Or.inl he⟩
        · intro t1 h1 t2 h2 hlt
          by_contra hge
          push_neg at hge
          have hne : t1.1 ≠ t2.1 := by
            intro he
            have ht := hinj h1 h2 he
            exact absurd (congrArg Prod.snd ht) (ne_of_lt hlt)
          exact h t1 h1 t2 h2 ⟨hne, Or.inr ⟨hlt, hge⟩⟩
      · rintro (hc | ⟨-, hd, hca⟩)
        · exact absurd hc hch'
        · rintro t1 h1 t2 h2 ⟨hne, hcase⟩
          rcases hcase with he | ⟨hlt, hle⟩
          · exact hd t1 h1 t2 h2 hne he
          · exact absurd hle (not_le.mpr (hca t1 h1 t2 h2 hlt))
    · rw [if_neg hlen]
      simp only [Bool.false_eq_true, false_iff]
      rintro (hc | ⟨hlen', -, -⟩)
      · exact hch' hc
      · exact hlen hlen'

/-- C1, witness for the amended theorem: with frozen scores (10, 5, 1) and
2 cheese remaining, the code declares the game over. -/
theorem C1_amended_witness : leadState.game_over = true := by
  refine (C1_amended_game_over_characterization leadState (by decide)).mpr
    (Or.inr ⟨?_, ?_, ?_⟩)
  · rw [spt_lead]; norm_num
  · intro t1 h1 t2 h2 hne
    rw [spt_lead] at h1 h2
    simp only [List.mem_cons, List.not_mem_nil, or_false] at h1 h2
    rcases h1 with rfl | rfl | rfl <;> rcases h2 with rfl | rfl | rfl <;>
      dsimp only <;> first | (exact absurd rfl hne) | norm_num
  · intro t1 h1 t2 h2 hlt
    rw [spt_lead] at h1 h2
    have hlen : ((leadState.cheese.length : ℚ)) = 2 := by norm_num [leadState]
    rw [hlen]
    simp only [List.mem_cons, List.not_mem_nil, or_false] at h1 h2
    rcases h1 with rfl | rfl | rfl <;> rcases h2 with rfl | rfl | rfl <;>
      dsimp only at hlt ⊢ <;> first | (norm_num; done) | linarith

/-! ### Claim C2 -/

/-- C2, counterexample.  Player "a" is not in mud at the start of the turn
and crosses the weight-3 mud edge.  The mud loop of
`__determine_new_game_state` iterates over `new_game_state`, so it already
decrements the record written by the movement loop of the same turn: the
stored count right after the entering turn is 2, not the weight 3 that the
claim's "an agent that just entered mud ... is not decremented that turn"
would require. -/
theorem C2_counterexample :
    mudState0.is_in_mud "a" = false ∧
    mud3Maze.get_weight (mudState0.player_locations "a") 1 = 3 ∧
    (determineNewGameState ["a"] mud3Maze mudState0 (fun _ => Action.EAST)).muds "a" =
      ⟨some 1, 2⟩ := by
  refine ⟨rfl, rfl, ?_⟩
  decide

/-- C2, amended.  In one resolve step every agent in mud after the
movement loop — including one that just entered mud that turn — has its
counter decremented; at zero the agent teleports to the stored target and
the record is cleared.  Hence an agent issuing the matching direction
across a weight-3 mud edge at turn `t` (and NOTHING afterwards) carries
counts 2 and 1 at turns `t+1` and `t+2`, and at turn `t+3` stands on the
target with the mud record cleared. -/
theorem C2_amended_mud_timeline (players : List String) (m : Maze)
    (s : GameState) (a1 a2 a3 : String → Action) (p : String) (t : Nat)
    (hnd : players.Nodup) (hp : p ∈ players)
    (hmud : (s.muds p).target = none)
    (htar : actionTarget m (s.player_locations p) (a1 p) = some t)
    (hex : m.i_exists t = true) (hed : m.has_edge (s.player_locations p) t = true)
    (hw : m.get_weight (s.player_locations p) t = 3)
    (ha2 : a2 p = Action.NOTHING) (ha3 : a3 p = Action.NOTHING) :
    (determineNewGameState players m s a1).muds p = ⟨some t, 2⟩ ∧
    (determineNewGameState players m s a1).player_locations p =
      s.player_locations p ∧
    (determineNewGameState players m s a1).turn = s.turn + 1 ∧
    (determineNewGameState players m
        (determineNewGameState players m s a1) a2).muds p = ⟨some t, 1⟩ ∧
    (determineNewGameState players m
        (determineNewGameState players m s a1) a2).player_locations p =
      s.player_locations p ∧
    (determineNewGameState players m (determineNewGameState players m
        (determineNewGameState players m s a1) a2) a3).player_locations p = t ∧
    (determineNewGameState players m (determineNewGameState players m
        (determineNewGameState players m s a1) a2) a3).muds p = ⟨none, 0⟩ ∧
    (determineNewGameState players m (determineNewGameState players m
        (determineNewGameState players m s a1) a2) a3).turn = s.turn + 3 := by
  have h1 := resolve_mud_entry players m s a1 p t hnd hp htar hex hed
    (by rw [hw]; norm_num)
  have hm1 : (determineNewGameState players m s a1).muds p = ⟨some t, 2⟩ := by
    rw [h1.2, hw]
    rfl
  have h2 := resolve_mud_tick players m (determineNewGameState players m s a1)
    a2 p t hnd hp ha2 (by rw [hm1]) (by rw [hm1]; norm_num)
  have hm2 : (determineNewGameState players m
      (determineNewGameState players m s a1) a2).muds p = ⟨some t, 1⟩ := by
    rw [h2.2, hm1]
    simp
  have h3 := resolve_mud_arrive players m (determineNewGameState players m
      (determineNewGameState players m s a1) a2) a3 p t hnd hp ha3
    (by rw [hm2]) (by rw [hm2]; norm_num)
  refine ⟨hm1, h1.1, resolve_turn players m s a1, hm2, ?_, h3.1, h3.2, ?_⟩
  · rw [h2.1, h1.1]
  · rw [resolve_turn, resolve_turn, resolve_turn]

/-- C2, witness: the weight-3 timeline on the concrete 1x2 mud maze. -/
theorem C2_amended_witness :
    (determineNewGameState ["a"] mud3Maze mudState0 (fun _ => Action.EAST)).muds "a" =
      ⟨some 1, 2⟩ ∧
    (determineNewGameState ["a"] mud3Maze mudState0
        (fun _ => Action.EAST)).player_locations "a" =
      mudState0.player_locations "a" ∧
    (determineNewGameState ["a"] mud3Maze mudState0 (fun _ => Action.EAST)).turn =
      mudState0.turn + 1 ∧
    (determineNewGameState ["a"] mud3Maze
        (determineNewGameState ["a"] mud3Maze mudState0 (fun _ => Action.EAST))
        (fun _ => Action.NOTHING)).muds "a" = ⟨some 1, 1⟩ ∧
    (determineNewGameState ["a"] mud3Maze
        (determineNewGameState ["a"] mud3Maze mudState0 (fun _ => Action.EAST))
        (fun _ => Action.NOTHING)).player_locations "a" =
      mudState0.player_locations "a" ∧
    (determineNewGameState ["a"] mud3Maze (determineNewGameState ["a"] mud3Maze
        (determineNewGameState ["a"] mud3Maze mudState0 (fun _ => Action.EAST))
        (fun _ => Action.NOTHING)) (fun _ => Action.NOTHING)).player_locations "a" = 1 ∧
    (determineNewGameState ["a"] mud3Maze (determineNewGameState ["a"] mud3Maze
        (determineNewGameState ["a"] mud3Maze mudState0 (fun _ => Action.EAST))
        (fun _ => Action.NOTHING)) (fun _ => Action.NOTHING)).muds "a" = ⟨none, 0⟩ ∧
    (determineNewGameState ["a"] mud3Maze (determineNewGameState ["a"] mud3Maze
        (determineNewGameState ["a"] mud3Maze mudState0 (fun _ => Action.EAST))
        (fun _ => Action.NOTHING)) (fun _ => Action.NOTHING)).turn =
      mudState0.turn + 3 :=
  C2_amended_mud_timeline ["a"] mud3Maze mudState0 (fun _ => Action.EAST)
    (fun _ => Action.NOTHING) (fun _ => Action.NOTHING) "a" 1
    (by decide) (by decide) rfl (by decide) (by decide) (by decide) rfl rfl rfl

/-! ### Claim C4 -/

/-- C4.  An agent not in mud whose accepted action points across a
non-existent edge (a wall) or outside the grid bounds keeps its location
through the resolve step, and the statistics tally of `Game.start`
classifies that turn as "wall", which is a different bucket from
NOTHING. -/
theorem C4_wall_tally (players : List String) (m : Maze) (s : GameState)
    (a : String → Action) (p : String)
    (hnd : players.Nodup) (hp : p ∈ players)
    (hmud : (s.muds p).target = none) (hact : a p ≠ Action.NOTHING)
    (hblock : actionTarget m (s.player_locations p) (a p) = none ∨
      ∃ t, actionTarget m (s.player_locations p) (a p) = some t ∧
        ¬(m.i_exists t = true ∧ m.has_edge (s.player_locations p) t = true)) :
    (determineNewGameState players m s a).player_locations p =
      s.player_locations p ∧
    tallyBucket allActionNames (a p).value (s.player_locations p)
      ((determineNewGameState players m s a).player_locations p)
      (s.is_in_mud p) = "wall" ∧
    ("wall" : String) ≠ Action.NOTHING.value := by
  obtain ⟨hloc, -⟩ := resolve_blocked players m s a p hnd hp hmud hblock
  refine ⟨hloc, ?_, by decide⟩
  unfold tallyBucket
  rw [if_pos ⟨value_mem_allActionNames _, value_ne_nothing _ hact, hloc.symm,
    is_in_mud_false_of_target_none s p hmud⟩]

/-- C4, witness: on the walled maze, "a" at cell 1 moving EAST hits the
missing 1-2 edge, stays, and the turn is tallied "wall". -/
theorem C4_witness :
    (determineNewGameState ["a"] wallMaze wallState
        (fun _ => Action.EAST)).player_locations "a" =
      wallState.player_locations "a" ∧
    tallyBucket allActionNames (Action.EAST).value (wallState.player_locations "a")
      ((determineNewGameState ["a"] wallMaze wallState
        (fun _ => Action.EAST)).player_locations "a")
      (wallState.is_in_mud "a") = "wall" ∧
    ("wall" : String) ≠ Action.NOTHING.value :=
  C4_wall_tally ["a"] wallMaze wallState (fun _ => Action.EAST) "a"
    (by decide) (by decide) rfl (by decide)
    (Or.inr ⟨2, by decide, by decide⟩)

/-! ### Claim C9 -/

/-- C9.  An agent not previously in mud that crosses an existing edge of
weight greater than 1 enters mud, stays on its cell, and — because the
tally classifies any valid non-NOTHING action that leaves an agent not in
mud on its cell as "wall" — that turn is tallied "wall" rather than under
the chosen direction. -/
theorem C9_mud_entry_tally (players : List String) (m : Maze) (s : GameState)
    (a : String → Action) (p : String) (t : Nat)
    (hnd : players.Nodup) (hp : p ∈ players)
    (hmud : (s.muds p).target = none)
    (htar : actionTarget m (s.player_locations p) (a p) = some t)
    (hex : m.i_exists t = true) (hed : m.has_edge (s.player_locations p) t = true)
    (hw : 1 < m.get_weight (s.player_locations p) t) :
    (determineNewGameState players m s a).player_locations p =
      s.player_locations p ∧
    (determineNewGameState players m s a).muds p =
      ⟨some t, (m.get_weight (s.player_locations p) t : Int) - 1⟩ ∧
    tallyBucket allActionNames (a p).value (s.player_locations p)
      ((determineNewGameState players m s a).player_locations p)
      (s.is_in_mud p) = "wall" ∧
    (a p).value ≠ "wall" := by
  obtain ⟨hloc, hmm⟩ := resolve_mud_entry players m s a p t hnd hp htar hex hed hw
  have hactn : a p ≠ Action.NOTHING := fun h => by
    rw [h, actionTarget_nothing] at htar
    cases htar
  refine ⟨hloc, hmm, ?_, value_ne_wall _⟩
  unfold tallyBucket
  rw [if_pos ⟨value_mem_allActionNames _, value_ne_nothing _ hactn, hloc.symm,
    is_in_mud_false_of_target_none s p hmud⟩]

/-- C9, witness: "a" enters the weight-3 mud edge, stays on cell 0 with
mud record (1, 2), and the turn is tallied "wall" instead of "east". -/
theorem C9_witness :
    (determineNewGameState ["a"] mud3Maze mudState0
        (fun _ => Action.EAST)).player_locations "a" =
      mudState0.player_locations "a" ∧
    (determineNewGameState ["a"] mud3Maze mudState0 (fun _ => Action.EAST)).muds "a" =
      ⟨some 1, (mud3Maze.get_weight (mudState0.player_locations "a") 1 : Int) - 1⟩ ∧
    tallyBucket allActionNames (Action.EAST).value (mudState0.player_locations "a")
      ((determineNewGameState ["a"] mud3Maze mudState0
        (fun _ => Action.EAST)).player_locations "a")
      (mudState0.is_in_mud "a") = "wall" ∧
    (Action.EAST).value ≠ "wall" :=
  C9_mud_entry_tally ["a"] mud3Maze mudState0 (fun _ => Action.EAST) "a" 1
    (by decide) (by decide) rfl (by decide) rfl rfl (by decide)

/-! ### Claim C3 -/

/-- C3.  After all movement of a resolve step, every cheese cell of the
old state occupied by `n >= 1` players loses its cheese, and each occupant
gains exactly `1 / n` — an equal, possibly fractional split. -/
theorem C3_cheese_split (players : List String) (m : Maze) (s : GameState)
    (a : String → Action) (hndp : players.Nodup) (hndc : s.cheese.Nodup)
    (c : Nat) (hc : c ∈ s.cheese)
    (hocc : players.filter
      (fun q => (determineNewGameState players m s a).player_locations q = c) ≠ []) :
    (∀ p ∈ players.filter
        (fun q => (determineNewGameState players m s a).player_locations q = c),
      (determineNewGameState players m s a).score_per_player p =
        s.score_per_player p +
          1 / ((players.filter
            (fun q => (determineNewGameState players m s a).player_locations q = c)).length : ℚ)) ∧
    c ∉ (determineNewGameState players m s a).cheese := by
  have hr : determineNewGameState players m s a =
      s.cheese.foldl (collectCheese players)
        (players.foldl advanceMud
          (players.foldl (applyMove m s a) { s with turn := s.turn + 1 })) := rfl
  have hloc := resolve_loc_eq_pre players m s a
  rw [hloc] at hocc ⊢
  constructor
  · intro p hp
    have hmem := List.mem_filter.mp hp
    have hploc : (players.foldl advanceMud
        (players.foldl (applyMove m s a)
          { s with turn := s.turn + 1 })).player_locations p = c :=
      of_decide_eq_true hmem.2
    have hsc := foldl_collect_score_at players hndp s.cheese hndc c hc p hmem.1 _ hploc
    rw [hr, hsc, resolve_pre_score players m s a]
  · rw [hr]
    exact foldl_collect_cheese_removed players s.cheese hndc c hc _ hocc
      (by rw [resolve_pre_cheese players m s a]; exact hndc)

/-- C3, witness: on the 1x3 line maze, "a" and "b" both land on the cheese
cell 1 and the split is 1/2 each (the filter has length 2); with "c"
already standing there it is 1/3 each; the cheese disappears. -/
theorem C3_witness :
    ((∀ p ∈ ["a", "b"].filter
        (fun q => (determineNewGameState ["a", "b"] lineMaze splitState2
          splitActs2).player_locations q = 1),
      (determineNewGameState ["a", "b"] lineMaze splitState2
          splitActs2).score_per_player p =
        splitState2.score_per_player p +
          1 / ((["a", "b"].filter
            (fun q => (determineNewGameState ["a", "b"] lineMaze splitState2
              splitActs2).player_locations q = 1)).length : ℚ)) ∧
      1 ∉ (determineNewGameState ["a", "b"] lineMaze splitState2 splitActs2).cheese) ∧
    (["a", "b"].filter
      (fun q => (determineNewGameState ["a", "b"] lineMaze splitState2
        splitActs2).player_locations q = 1)).length = 2 ∧
    ((∀ p ∈ ["a", "b", "c"].filter
        (fun q => (determineNewGameState ["a", "b", "c"] lineMaze splitState3
          splitActs3).player_locations q = 1),
      (determineNewGameState ["a", "b", "c"] lineMaze splitState3
          splitActs3).score_per_player p =
        splitState3.score_per_player p +
          1 / ((["a", "b", "c"].filter
            (fun q => (determineNewGameState ["a", "b", "c"] lineMaze splitState3
              splitActs3).player_locations q = 1)).length : ℚ)) ∧
      1 ∉ (determineNewGameState ["a", "b", "c"] lineMaze splitState3
        splitActs3).cheese) ∧
    (["a", "b", "c"].filter
      (fun q => (determineNewGameState ["a", "b", "c"] lineMaze splitState3
        splitActs3).player_locations q = 1)).length = 3 :=
  ⟨C3_cheese_split ["a", "b"] lineMaze splitState2 splitActs2
      (by decide) (by decide) 1 (by decide) (by decide),
   by decide,
   C3_cheese_split ["a", "b", "c"] lineMaze splitState3 splitActs3
      (by decide) (by decide) 1 (by decide) (by decide),
   by decide⟩

/-! ### Claim C5 -/

/-- C5.  Starting from an initial state with zero scores and duplicate-free
cheese, along any sequence of resolve steps the total of the players'
scores never decreases from one turn to the next, and never exceeds the
initial number of cheese. -/
theorem C5_score_sum_bound (players : List String) (m : Maze)
    (init s : GameState) (hnd : players.Nodup)
    (hs0 : ∀ p ∈ players, init.score_per_player p = 0)
    (hcd : init.cheese.Nodup)
    (hreach : Reachable players m init s) :
    (∀ a, sumScores players s ≤
      sumScores players (determineNewGameState players m s a)) ∧
    sumScores players s ≤ (init.cheese.length : ℚ) := by
  have hsum0 : sumScores players init = 0 := by
    unfold sumScores
    apply List.sum_eq_zero
    intro x hx
    obtain ⟨p, hp, rfl⟩ := List.mem_map.mp hx
    exact hs0 p hp
  have hinv : sumScores players s + (s.cheese.length : ℚ) =
      (init.cheese.length : ℚ) ∧ s.cheese.Nodup := by
    induction hreach with
    | refl => exact ⟨by rw [hsum0]; ring, hcd⟩
    | step a hprev ih =>
      obtain ⟨ihsum, ihnd⟩ := ih
      refine ⟨?_, resolve_cheese_nodup _ _ _ _ ihnd⟩
      rw [resolve_conservation players m _ a hnd ihnd, ihsum]
  have hnn : (0:ℚ) ≤ (s.cheese.length : ℚ) := by positivity
  exact ⟨fun a => resolve_sum_mono players m s a, by linarith [hinv.1]⟩

/-- C5, witness: one step from the two-player split state (the initial
state itself is reachable, scores 0, one cheese). -/
theorem C5_witness :
    (∀ a, sumScores ["a", "b"] splitState2 ≤
      sumScores ["a", "b"] (determineNewGameState ["a", "b"] lineMaze splitState2 a)) ∧
    sumScores ["a", "b"] splitState2 ≤ (splitState2.cheese.length : ℚ) :=
  C5_score_sum_bound ["a", "b"] lineMaze splitState2 splitState2
    (by decide) (fun p _ => rfl) (by decide) Reachable.refl

/-! ### Claim C6 -/

/-- C6.  At any turn where some player's outcome string is "error" and
`continue_on_error` is false, `start` raises, the `except` clause discards
the statistics (the result is the empty record), and the rendering
engine's `end` hook still runs. -/
theorem C6_abort_on_error (players : List String) (m : Maze) (s : GameState)
    (st : Stats) (acts : String → String) (rest : List (String → String))
    (herr : players.any (fun p => acts p = "error") = true) :
    (startRun players m false s st (acts :: rest)).stats = none ∧
    (startRun players m false s st (acts :: rest)).endInvoked = true := by
  unfold startRun
  refine ⟨?_, rfl⟩
  show runGame players m false s st (acts :: rest) = none
  unfold runGame
  rw [herr]
  rfl

/-- C6, witness: a single-player match whose first turn reports "error"
with `continue_on_error = false`. -/
theorem C6_witness :
    (startRun ["a"] lineMaze false mudState0 initialStats
      [fun _ => "error"]).stats = none ∧
    (startRun ["a"] lineMaze false mudState0 initialStats
      [fun _ => "error"]).endInvoked = true :=
  C6_abort_on_error ["a"] lineMaze mudState0 initialStats (fun _ => "error") []
    (by decide)

/-! ### Claim C7 -/

/-- C7.  A per-turn value that is not one of the action strings — in
particular the "error" string produced at the worker boundary for a value
outside the `Action` enum — is corrected to `Action.NOTHING`, and move
resolution with it is identical to move resolution with NOTHING. -/
theorem C7_invalid_is_nothing (v : String) (hv : v ∉ allActionNames)
    (players : List String) (m : Maze) (s : GameState) (a : String → Action)
    (p : String) :
    correctAction v = Action.NOTHING ∧
    correctAction (workerTurnAction none) = Action.NOTHING ∧
    determineNewGameState players m s (Function.update a p (correctAction v)) =
      determineNewGameState players m s (Function.update a p Action.NOTHING) := by
  have h1 : correctAction v = Action.NOTHING := by
    unfold correctAction
    rw [if_neg hv]
  exact ⟨h1, by decide, by rw [h1]⟩

/-- C7, witness: the "miss" string is not an action value and resolves as
NOTHING. -/
theorem C7_witness :
    correctAction "miss" = Action.NOTHING ∧
    correctAction (workerTurnAction none) = Action.NOTHING ∧
    determineNewGameState ["a"] lineMaze mudState0
        (Function.update (fun _ => Action.EAST) "a" (correctAction "miss")) =
      determineNewGameState ["a"] lineMaze mudState0
        (Function.update (fun _ => Action.EAST) "a" Action.NOTHING) :=
  C7_invalid_is_nothing "miss" (by decide) ["a"] lineMaze mudState0
    (fun _ => Action.EAST) "a"

/-! ### Claim C8 -/

/-- C8.  From an initial placement through `add_player`'s corrected
location (kept when it exists, otherwise the closest existing cell), every
state reachable by resolve steps keeps every player's location on an
existing maze vertex. -/
theorem C8_locations_exist (players : List String) (m : Maze)
    (init s : GameState) (asked : String → Nat) (hne : m.vertices ≠ [])
    (hInitLoc : ∀ p ∈ players,
      init.player_locations p = correctedToLocation m (asked p))
    (hInitMud : ∀ p ∈ players, (init.muds p).target = none)
    (hreach : Reachable players m init s) :
    ∀ p ∈ players, s.player_locations p ∈ m.vertices := by
  have hstrong : ∀ p ∈ players, s.player_locations p ∈ m.vertices ∧
      ∀ t, (s.muds p).target = some t → t ∈ m.vertices := by
    induction hreach with
    | refl =>
      intro p hp
      refine ⟨?_, ?_⟩
      · rw [hInitLoc p hp]
        exact correctedToLocation_mem m (asked p) hne
      · intro t ht
        rw [hInitMud p hp] at ht
        cases ht
    | step a hprev ih => exact resolve_inv players m _ a ih
  exact fun p hp => (hstrong p hp).1

/-- C8, witness: after one EAST step on the line maze the players still
stand on maze vertices. -/
theorem C8_witness :
    (determineNewGameState ["a"] lineMaze mudState0
      (fun _ => Action.EAST)).player_locations "a" ∈ lineMaze.vertices :=
  C8_locations_exist ["a"] lineMaze mudState0
    (determineNewGameState ["a"] lineMaze mudState0 (fun _ => Action.EAST))
    (fun _ => 0) (by decide) (fun p _ => rfl) (fun p _ => rfl)
    (Reachable.step (fun _ => Action.EAST) Reachable.refl) "a" (by decide)

/-! ### Claim C10 -/

/-- C10.  The distributed cheese cells are pairwise distinct existing maze
cells, none of which is a player's initial location; and with no fixed
cheese list the number of distributed cheese equals `nb_cheese`.  The
hypotheses mirror `__distribute_cheese`'s assertions (a duplicate-free
fixed list on available cells; enough available cells) and the vertex
uniqueness enforced by `Graph.add_vertex`; the random shuffle is a
permutation of the available cells. -/
theorem C10_cheese_distribution (m : Maze) (players : List String)
    (locs : String → Nat) (hv : m.vertices.Nodup)
    (fixedCheese : Option (List Nat)) (nb : Nat) (shuffled : List Nat)
    (hfix : ∀ fc, fixedCheese = some fc → fc.Nodup ∧
      ∀ x ∈ fc, x ∈ availableCells m players locs)
    (hshuf : shuffled.Perm (availableCells m players locs))
    (hnb : fixedCheese = none → nb ≤ (availableCells m players locs).length) :
    (distributeCheese fixedCheese nb shuffled).Nodup ∧
    (∀ x ∈ distributeCheese fixedCheese nb shuffled,
      x ∈ m.vertices ∧ ∀ p ∈ players, locs p ≠ x) ∧
    (fixedCheese = none →
      (distributeCheese fixedCheese nb shuffled).length = nb) := by
  have havail : ∀ x ∈ availableCells m players locs,
      x ∈ m.vertices ∧ ∀ p ∈ players, locs p ≠ x := by
    intro x hx
    have h := List.mem_filter.mp hx
    exact ⟨h.1, of_decide_eq_true h.2⟩
  have hanodup : (availableCells m players locs).Nodup := hv.filter _
  cases fixedCheese with
  | some fc =>
    obtain ⟨hnd, hmem⟩ := hfix fc rfl
    refine ⟨hnd, ?_, ?_⟩
    · intro x hx
      exact havail x (hmem x hx)
    · intro h
      cases h
  | none =>
    have hsnd : shuffled.Nodup := (hshuf.nodup_iff).mpr hanodup
    refine ⟨?_, ?_, ?_⟩
    · exact hsnd.sublist (List.take_sublist nb shuffled)
    · intro x hx
      exact havail x (hshuf.subset (List.take_subset nb shuffled hx))
    · intro _
      show (shuffled.take nb).length = nb
      rw [List.length_take, hshuf.length_eq]
      exact Nat.min_eq_left (hnb rfl)

/-- C10, witness: on the line maze with "a" on cell 0, one cheese drawn
from the shuffled available cells [2, 1]. -/
theorem C10_witness :
    (distributeCheese none 1 [2, 1]).Nodup ∧
    (∀ x ∈ distributeCheese none 1 [2, 1],
      x ∈ lineMaze.vertices ∧ ∀ p ∈ ["a"], (fun _ => 0 : String → Nat) p ≠ x) ∧
    ((none : Option (List Nat)) = none → (distributeCheese none 1 [2, 1]).length = 1) :=
  C10_cheese_distribution lineMaze ["a"] (fun _ => 0) (by decide) none 1 [2, 1]
    (fun fc h => by cases h) (by decide) (fun _ => by decide)

end PyRat
